import Mathlib

set_option maxHeartbeats 1000000

/-!
Verification of the chromium-base repository: the idle timer
(src/idle_timer.cc) and the task scheduler (specified in spec.md; its
implementation is exercised by src/task_scheduler/task_scheduler_impl_unittest.cc).
Machine integers are embedded as `Int` with explicit wrap-around where the
source works in 32-bit arithmetic; time stamps and durations are integers in
milliseconds.
-/

namespace IdleTimer

/-- Interpretation of an integer as a signed 32-bit value under two's
complement wrap-around: reduce modulo 2^32 into `[0, 2^32)`, then map the
upper half down by 2^32. Used for the `int32` casts and arithmetic in
`IdleTimerTask::CurrentIdleTime` (src/idle_timer.cc lines 57-62). -/
def toInt32 (n : Int) : Int :=
  if n % 4294967296 < 2147483648 then n % 4294967296 else n % 4294967296 - 4294967296

/-- State of an `IdleTimerTask` (src/idle_timer.cc): the constructor-set
idle interval and repeat flag, the time the idle callback last fired, and
the one-shot timer when armed (holding its delay in milliseconds). -/
structure IdleTimerState where
  idle_interval_ : Int
  repeat_ : Bool
  last_time_fired_ : Int
  timer_ : Option Int

/-- One sample of the environment the timer code reads: `Time::Now()` in
milliseconds, whether `GetLastInputInfo` succeeds, the reported
`info.dwTime`, and `GetTickCount()`. -/
structure TimeEnv where
  now : Int
  inputOk : Bool
  dwTime : Int
  tick : Int

/-- `IdleTimerTask::CurrentIdleTime` (src/idle_timer.cc lines 51-67):
casts `info.dwTime` and `GetTickCount()` to `int32`, subtracts with 32-bit
wrap-around, negates a negative interval (again with 32-bit wrap-around,
as the source stores the result back into an `int32`), and returns 0 on
`GetLastInputInfo` failure. -/
def CurrentIdleTime (inputOk : Bool) (dwTime tick : Int) : Int :=
  if inputOk then
    let last_input_time := toInt32 dwTime
    let current_time := toInt32 tick
    let interval := toInt32 (current_time - last_input_time)
    if interval < 0 then toInt32 (-interval) else interval
  else 0

/-- `IdleTimerTask::TimeUntilIdle` (src/idle_timer.cc lines 69-78). -/
def TimeUntilIdle (s : IdleTimerState) (e : TimeEnv) : Int :=
  let time_since_last_fire := e.now - s.last_time_fired_
  let current_idle_time := CurrentIdleTime e.inputOk e.dwTime e.tick
  if current_idle_time > time_since_last_fire then
    (if s.repeat_ then s.idle_interval_ - time_since_last_fire else s.idle_interval_)
  else
    s.idle_interval_ - current_idle_time

/-- `IdleTimerTask::StartTimer` (src/idle_timer.cc lines 41-49): computes
the delay with `TimeUntilIdle`, clamps a negative delay to zero, and arms a
one-shot timer with that delay. -/
def StartTimer (s : IdleTimerState) (e : TimeEnv) : IdleTimerState :=
  let delay := TimeUntilIdle s e
  let delay2 := if delay < 0 then 0 else delay
  { s with timer_ := some delay2 }

/-- `IdleTimerTask::Stop` (src/idle_timer.cc lines 27-29). -/
def Stop (s : IdleTimerState) : IdleTimerState :=
  { s with timer_ := none }

/-- First half of `IdleTimerTask::Run` (src/idle_timer.cc lines 31-36): if
`TimeUntilIdle() <= 0` the `OnIdle` callback fires and `last_time_fired_`
is set to `Time::Now()` (sampled as `nowFire`). -/
def postFire (s : IdleTimerState) (e1 : TimeEnv) (nowFire : Int) : IdleTimerState :=
  if TimeUntilIdle s e1 ≤ 0 then { s with last_time_fired_ := nowFire } else s

/-- `IdleTimerTask::Run` (src/idle_timer.cc lines 31-39): check the idle
condition on one environment sample `e1` (firing `OnIdle` when it holds,
reported by the returned Bool), then `Stop()` and `StartTimer()`, the
latter on a fresh environment sample `e2`. -/
def Run (s : IdleTimerState) (e1 : TimeEnv) (nowFire : Int) (e2 : TimeEnv) :
    IdleTimerState × Bool :=
  let fired := decide (TimeUntilIdle s e1 ≤ 0)
  let s1 := postFire s e1 nowFire
  let s2 := Stop s1
  (StartTimer s2 e2, fired)

theorem toInt32_bounds (n : Int) : -2147483648 ≤ toInt32 n ∧ toInt32 n < 2147483648 := by
  unfold toInt32
  split <;> omega

theorem toInt32_of_small (n : Int) (h1 : 0 ≤ n) (h2 : n < 2147483648) : toInt32 n = n := by
  unfold toInt32
  split <;> omega

/-- C9 counterexample: at `dwTime = 0` and `tick = 2^31` (an idle span of
exactly 2^31 milliseconds), the 32-bit difference is `-2^31`, whose 32-bit
negation is again `-2^31`, so `CurrentIdleTime` returns a negative value. -/
theorem currentIdleTime_negative_at_half_wrap :
    CurrentIdleTime true 0 2147483648 < 0 := by
  decide

/-- C9 (amended): `IdleTimerTask::CurrentIdleTime` returns a non-negative
duration, with the negative 32-bit tick difference replaced by its absolute
value, in every case except when that difference is exactly `-2^31`
(2^31 milliseconds of idleness), where the 32-bit negation wraps back to
`-2^31` and a negative duration is returned. -/
theorem currentIdleTime_nonneg (inputOk : Bool) (dwTime tick : Int)
    (h : toInt32 (toInt32 tick - toInt32 dwTime) ≠ -2147483648) :
    0 ≤ CurrentIdleTime inputOk dwTime tick ∧
      (inputOk = true →
        CurrentIdleTime inputOk dwTime tick =
          (toInt32 (toInt32 tick - toInt32 dwTime)).natAbs) := by
  cases inputOk with
  | false =>
    constructor
    · simp [CurrentIdleTime]
    · intro hcontra
      exact absurd hcontra (by simp)
  | true =>
    have hb := toInt32_bounds (toInt32 tick - toInt32 dwTime)
    unfold CurrentIdleTime
    simp only [if_true]
    split
    case isTrue hneg =>
      have hsmall : toInt32 (-(toInt32 (toInt32 tick - toInt32 dwTime))) =
          -(toInt32 (toInt32 tick - toInt32 dwTime)) := by
        apply toInt32_of_small <;> omega
      rw [hsmall]
      constructor
      · omega
      · intro _
        omega
    case isFalse hpos =>
      constructor
      · omega
      · intro _
        omega

/-- C9 witness: a concrete unsuspicious input (1 second of idleness). -/
theorem currentIdleTime_nonneg_witness :
    toInt32 (toInt32 6000 - toInt32 5000) ≠ -2147483648 ∧
      (0 ≤ CurrentIdleTime true 5000 6000 ∧
        (true = true →
          CurrentIdleTime true 5000 6000 =
            (toInt32 (toInt32 6000 - toInt32 5000)).natAbs)) :=
  ⟨by decide, currentIdleTime_nonneg true 5000 6000 (by decide)⟩

/-- C10: every invocation of `IdleTimerTask::Run` re-arms the timer — it
ends with `Stop()` then `StartTimer()` on every path, whether or not
`OnIdle` fired and whatever the `repeat_` flag — and the armed delay is the
`TimeUntilIdle` value clamped up to zero, hence never negative. -/
theorem run_always_rearms (s : IdleTimerState) (e1 : TimeEnv) (nowFire : Int)
    (e2 : TimeEnv) :
    (Run s e1 nowFire e2).1.timer_ =
        some (max 0 (TimeUntilIdle (postFire s e1 nowFire) e2)) ∧
      0 ≤ max 0 (TimeUntilIdle (postFire s e1 nowFire) e2) := by
  have hstop : TimeUntilIdle (Stop (postFire s e1 nowFire)) e2 =
      TimeUntilIdle (postFire s e1 nowFire) e2 := rfl
  constructor
  · show (StartTimer (Stop (postFire s e1 nowFire)) e2).timer_ = _
    unfold StartTimer
    rw [hstop]
    have hmax : (if TimeUntilIdle (postFire s e1 nowFire) e2 < 0 then (0 : Int)
        else TimeUntilIdle (postFire s e1 nowFire) e2) =
        max 0 (TimeUntilIdle (postFire s e1 nowFire) e2) := by
      split
      case isTrue hlt => rw [max_eq_left (by omega)]
      case isFalse hge => rw [max_eq_right (by omega)]
    simp only [hmax]
  · exact le_max_left 0 _

end IdleTimer

namespace Scheduler

/-- Modelled from the spec: the task scheduler's implementation is not among
the repository's files (only its unittest is), so the whole `Scheduler`
namespace embeds the spec's description of TaskTraits, Sequences, worker
pools, task runners and the shutdown protocol as a small-step transition
system; task bodies are opaque and execution is recorded as begin/end
events. `TaskPriority` is the ordered closed set BACKGROUND < NORMAL <
HIGHEST with LOWEST = BACKGROUND. -/
inductive TaskPriority
  | BACKGROUND
  | NORMAL
  | HIGHEST
  deriving DecidableEq

/-- Modelled from the spec: the OS thread priority levels the scheduler
sets — reduced (BACKGROUND) or normal. -/
inductive ThreadPriority
  | BACKGROUND
  | NORMAL
  deriving DecidableEq

/-- Modelled from the spec: `TaskTraits`, a value type with two independent
fields, the priority and whether the task needs file I/O permission. -/
structure TaskTraits where
  priority : TaskPriority
  with_file_io : Bool
  deriving DecidableEq

/-- Modelled from the spec: `TaskTraits::WithPriority(p)` returns a copy of
the traits with the priority field set to `p`. -/
def TaskTraits.WithPriority (t : TaskTraits) (p : TaskPriority) : TaskTraits :=
  { t with priority := p }

/-- Modelled from the spec: `TaskTraits::WithFileIO()` returns a copy of
the traits with the `with_file_io` field set to true. -/
def TaskTraits.WithFileIo (t : TaskTraits) : TaskTraits :=
  { t with with_file_io := true }

/-- Modelled from the spec: `ExecutionMode`. -/
inductive ExecutionMode
  | PARALLEL
  | SEQUENCED
  | SINGLE_THREADED
  deriving DecidableEq

/-- Modelled from the spec: a Task is an immutable unit of deferred work —
an opaque callable identified here by a posting-order id — plus its traits. -/
structure Task where
  id : Nat
  traits : TaskTraits
  deriving DecidableEq

/-- Modelled from the spec (design note §9): the per-Sequence state machine
EMPTY / QUEUED / RUNNING. -/
inductive SeqState
  | EMPTY
  | QUEUED
  | RUNNING
  deriving DecidableEq

/-- Modelled from the spec: a Sequence — FIFO queue of pending tasks, the
state-machine flag, the priority class of the pool it is scheduled into,
whether its runner is SINGLE_THREADED, and (for SINGLE_THREADED) the worker
it is pinned to once it first runs. -/
structure Sequence where
  pool : TaskPriority
  single : Bool
  queue : List Task
  sstate : SeqState
  bound : Option Nat
  deriving DecidableEq

/-- Modelled from the spec: a Task Runner handle — traits, execution mode,
and the owned Sequence for the non-PARALLEL modes. -/
structure TaskRunner where
  traits : TaskTraits
  mode : ExecutionMode
  seq : Option Nat
  deriving DecidableEq

/-- A unit of work a worker executes: a bare PARALLEL task, or the front
task of a Sequence. -/
inductive WorkUnit
  | bare (t : Task)
  | seqTask (sid : Nat) (t : Task)
  deriving DecidableEq

def WorkUnit.task : WorkUnit → Task
  | .bare t => t
  | .seqTask _ t => t

/-- An entry of a pool's ready queue: a bare PARALLEL task or a Sequence
whose front task is ready. -/
inductive ReadyUnit
  | bare (t : Task)
  | seqRef (sid : Nat)
  deriving DecidableEq

inductive WorkerState
  | idle
  | running (u : WorkUnit)
  | exited
  deriving DecidableEq

/-- Thread-local environment of a worker thread: its OS thread priority
and whether I/O-blocking restrictions are lifted. -/
structure WorkerEnv where
  threadPriority : ThreadPriority
  ioAllowed : Bool
  deriving DecidableEq

structure Worker where
  pool : TaskPriority
  wstate : WorkerState
  env : WorkerEnv
  deriving DecidableEq

/-- Execution history: tasks posted (with their Sequence, if any), and task
bodies begun and ended on a worker. -/
inductive Event
  | posted (sid : Option Nat) (t : Task)
  | began (w : Nat) (u : WorkUnit)
  | ended (w : Nat) (u : WorkUnit)
  deriving DecidableEq

/-- Modelled from the spec: the whole scheduler — runners and sequences
(indexed by position), the ready queue (arrival-ordered, each entry tagged
with the pool priority it belongs to), the worker threads, the shutdown
and join flags, the next task id, and the event trace (oldest first). -/
structure SchedState where
  runners : List TaskRunner
  seqs : List Sequence
  ready : List (TaskPriority × ReadyUnit)
  workers : List Worker
  shutdown : Bool
  joined : Bool
  nextTaskId : Nat
  trace : List Event

/-- Normal thread environment: normal OS priority, I/O restrictions on. -/
def envNormal : WorkerEnv :=
  ⟨ThreadPriority.NORMAL, false⟩

/-- Modelled from the spec (§4.1): BACKGROUND task priority maps to reduced
OS thread priority, every other priority to normal; `with_file_io` lifts
the I/O restrictions for the task. -/
def envFor (t : TaskTraits) : WorkerEnv :=
  ⟨if t.priority = TaskPriority.BACKGROUND then ThreadPriority.BACKGROUND
    else ThreadPriority.NORMAL, t.with_file_io⟩

def mkWorker (p : TaskPriority) : Worker :=
  ⟨p, WorkerState.idle, envNormal⟩

/-- Modelled from the spec: `Scheduler::Create()` constructs the worker
pools eagerly; `ws` lists the pool (priority class) of each worker thread. -/
def initState (ws : List TaskPriority) : SchedState :=
  { runners := [], seqs := [], ready := [], workers := ws.map mkWorker,
    shutdown := false, joined := false, nextTaskId := 0, trace := [] }

/-- Modelled from the spec: `Scheduler::CreateTaskRunnerWithTraits` returns
a new Task Runner, with a freshly allocated (empty) Sequence when the mode
is not PARALLEL. -/
def SchedState.createTaskRunnerWithTraits (s : SchedState) (traits : TaskTraits)
    (mode : ExecutionMode) : SchedState × Nat :=
  match mode with
  | .PARALLEL =>
      ({ s with runners := s.runners ++ [⟨traits, mode, none⟩] }, s.runners.length)
  | _ =>
      ({ s with
          runners := s.runners ++ [⟨traits, mode, some s.seqs.length⟩],
          seqs := s.seqs ++
            [⟨traits.priority, decide (mode = ExecutionMode.SINGLE_THREADED),
              [], SeqState.EMPTY, none⟩] },
        s.runners.length)

/-- Modelled from the spec: `TaskRunner::PostTask` — fails (task dropped,
returns false) only when shutdown has begun; otherwise wraps the task in
the Runner's Sequence if the mode is not PARALLEL (queueing the Sequence
if it was EMPTY) or enqueues it as a bare unit into the pool matching the
Runner's traits' priority, and returns true. -/
def SchedState.postTaskViaRunner (s : SchedState) (rid : Nat) : SchedState × Bool :=
  match s.runners[rid]? with
  | none => (s, false)
  | some r =>
      if s.shutdown then (s, false)
      else
        let t : Task := ⟨s.nextTaskId, r.traits⟩
        match r.seq with
        | none =>
            ({ s with
                ready := s.ready ++ [(r.traits.priority, ReadyUnit.bare t)],
                nextTaskId := s.nextTaskId + 1,
                trace := s.trace ++ [Event.posted none t] }, true)
        | some sid =>
            match s.seqs[sid]? with
            | none => (s, false)
            | some sq =>
                ({ s with
                    seqs := s.seqs.set sid
                      { sq with
                          queue := sq.queue ++ [t],
                          sstate := if sq.sstate = SeqState.EMPTY then SeqState.QUEUED
                            else sq.sstate },
                    ready := if sq.sstate = SeqState.EMPTY then
                        s.ready ++ [(sq.pool, ReadyUnit.seqRef sid)]
                      else s.ready,
                    nextTaskId := s.nextTaskId + 1,
                    trace := s.trace ++ [Event.posted (some sid) t] }, true)

/-- Modelled from the spec: `Scheduler::PostTaskWithTraits`, a one-shot
PARALLEL-mode post with no associated Runner. -/
def SchedState.postTaskWithTraits (s : SchedState) (traits : TaskTraits) :
    SchedState × Bool :=
  if s.shutdown then (s, false)
  else
    let t : Task := ⟨s.nextTaskId, traits⟩
    ({ s with
        ready := s.ready ++ [(traits.priority, ReadyUnit.bare t)],
        nextTaskId := s.nextTaskId + 1,
        trace := s.trace ++ [Event.posted none t] }, true)

/-- Modelled from the spec: `JoinForTesting` signals shutdown to every
pool; the call is idempotent. -/
def joinRequest (s : SchedState) : SchedState :=
  { s with shutdown := true }

/-- Whether ready-queue entry `e` could be claimed by worker `wid` (in
worker record `w`): its pool must match, and a Sequence entry must not be
pinned to another worker. -/
def claimable (s : SchedState) (wid : Nat) (w : Worker)
    (e : TaskPriority × ReadyUnit) : Prop :=
  e.1 = w.pool ∧
    match e.2 with
    | .bare _ => True
    | .seqRef sid =>
        ∃ sq, s.seqs[sid]? = some sq ∧ (sq.bound = none ∨ sq.bound = some wid)

/-- Modelled from the spec (§4.2, §4.3, §4.4): one transition of the
scheduler. Posting and runner creation are the caller-side API calls; a
worker claims the first compatible entry of its pool's ready queue (only
while shutdown has not begun), applies the task's environment, and runs
the unit; finishing a task reverts the environment and re-enqueues or
releases the Sequence; `JoinForTesting` signals shutdown, each worker
finishes its claimed unit and exits, and the join returns once every
worker has exited. -/
inductive Step : SchedState → SchedState → Prop
  | post (s : SchedState) (rid : Nat) :
      Step s (s.postTaskViaRunner rid).1
  | postDirect (s : SchedState) (traits : TaskTraits) :
      Step s (s.postTaskWithTraits traits).1
  | createRunner (s : SchedState) (traits : TaskTraits) (mode : ExecutionMode) :
      Step s (s.createTaskRunnerWithTraits traits mode).1
  | claimBare (s : SchedState) (wid : Nat) (w : Worker)
      (l1 l2 : List (TaskPriority × ReadyUnit)) (t : Task)
      (hw : s.workers[wid]? = some w)
      (hidle : w.wstate = WorkerState.idle)
      (hsd : s.shutdown = false)
      (hready : s.ready = l1 ++ (w.pool, ReadyUnit.bare t) :: l2)
      (hfirst : ∀ e ∈ l1, ¬ claimable s wid w e) :
      Step s { s with
        ready := l1 ++ l2,
        workers := s.workers.set wid
          ⟨w.pool, WorkerState.running (WorkUnit.bare t), envFor t.traits⟩,
        trace := s.trace ++ [Event.began wid (WorkUnit.bare t)] }
  | claimSeq (s : SchedState) (wid : Nat) (w : Worker)
      (l1 l2 : List (TaskPriority × ReadyUnit)) (sid : Nat) (sq : Sequence)
      (t : Task) (rest : List Task)
      (hw : s.workers[wid]? = some w)
      (hidle : w.wstate = WorkerState.idle)
      (hsd : s.shutdown = false)
      (hready : s.ready = l1 ++ (w.pool, ReadyUnit.seqRef sid) :: l2)
      (hfirst : ∀ e ∈ l1, ¬ claimable s wid w e)
      (hsq : s.seqs[sid]? = some sq)
      (hbound : sq.bound = none ∨ sq.bound = some wid)
      (hq : sq.queue = t :: rest) :
      Step s { s with
        ready := l1 ++ l2,
        seqs := s.seqs.set sid
          { sq with
              queue := rest,
              sstate := SeqState.RUNNING,
              bound := if sq.single then some wid else sq.bound },
        workers := s.workers.set wid
          ⟨w.pool, WorkerState.running (WorkUnit.seqTask sid t), envFor t.traits⟩,
        trace := s.trace ++ [Event.began wid (WorkUnit.seqTask sid t)] }
  | finishBare (s : SchedState) (wid : Nat) (w : Worker) (t : Task)
      (hw : s.workers[wid]? = some w)
      (hrun : w.wstate = WorkerState.running (WorkUnit.bare t)) :
      Step s { s with
        workers := s.workers.set wid ⟨w.pool, WorkerState.idle, envNormal⟩,
        trace := s.trace ++ [Event.ended wid (WorkUnit.bare t)] }
  | finishSeq (s : SchedState) (wid : Nat) (w : Worker) (sid : Nat)
      (sq : Sequence) (t : Task)
      (hw : s.workers[wid]? = some w)
      (hrun : w.wstate = WorkerState.running (WorkUnit.seqTask sid t))
      (hsq : s.seqs[sid]? = some sq) :
      Step s { s with
        workers := s.workers.set wid ⟨w.pool, WorkerState.idle, envNormal⟩,
        seqs := s.seqs.set sid
          { sq with
              sstate := if sq.queue = [] then SeqState.EMPTY else SeqState.QUEUED },
        ready := if sq.queue = [] then s.ready
          else s.ready ++ [(sq.pool, ReadyUnit.seqRef sid)],
        trace := s.trace ++ [Event.ended wid (WorkUnit.seqTask sid t)] }
  | requestShutdown (s : SchedState) :
      Step s (joinRequest s)
  | workerExit (s : SchedState) (wid : Nat) (w : Worker)
      (hw : s.workers[wid]? = some w)
      (hidle : w.wstate = WorkerState.idle)
      (hsd : s.shutdown = true) :
      Step s { s with
        workers := s.workers.set wid ⟨w.pool, WorkerState.exited, w.env⟩ }
  | joinReturn (s : SchedState)
      (hsd : s.shutdown = true)
      (hall : ∀ w ∈ s.workers, w.wstate = WorkerState.exited) :
      Step s { s with joined := true }

/-- States reachable from a freshly created scheduler. -/
inductive Reach (init : SchedState) : SchedState → Prop
  | refl : Reach init init
  | step {s s2 : SchedState} : Reach init s → Step s s2 → Reach init s2

/-- Tasks posted to Sequence `sid`, in posting order. -/
def postedTo (tr : List Event) (sid : Nat) : List Task :=
  tr.filterMap fun e =>
    match e with
    | .posted (some sid2) t => if sid2 = sid then some t else none
    | _ => none

/-- Tasks of Sequence `sid` whose body has begun, in begin order. -/
def begunIn (tr : List Event) (sid : Nat) : List Task :=
  tr.filterMap fun e =>
    match e with
    | .began _ (.seqTask sid2 t) => if sid2 = sid then some t else none
    | _ => none

/-- Tasks of Sequence `sid` whose body has ended, in end order. -/
def endedIn (tr : List Event) (sid : Nat) : List Task :=
  tr.filterMap fun e =>
    match e with
    | .ended _ (.seqTask sid2 t) => if sid2 = sid then some t else none
    | _ => none

/-- Workers on which tasks of Sequence `sid` have begun, in begin order. -/
def beganWorkers (tr : List Event) (sid : Nat) : List Nat :=
  tr.filterMap fun e =>
    match e with
    | .began w (.seqTask sid2 _) => if sid2 = sid then some w else none
    | _ => none

/-- All begin events of the trace (any unit, any worker). -/
def beganEvents (tr : List Event) : List Event :=
  tr.filter fun e =>
    match e with
    | .began _ _ => true
    | _ => false

/-- Worker `wid` is currently mid-execution of task `t` of Sequence `sid`. -/
def runningSeqTask (workers : List Worker) (wid : Nat) (sid : Nat)
    (t : Task) : Prop :=
  ∃ w, workers[wid]? = some w ∧
    w.wstate = WorkerState.running (WorkUnit.seqTask sid t)

theorem mem_of_look {α : Type} {l : List α} {i : Nat} {a : α}
    (h : l[i]? = some a) : a ∈ l := by
  obtain ⟨hlt, rfl⟩ := List.getElem?_eq_some_iff.mp h
  exact List.getElem_mem hlt

theorem lt_of_look {α : Type} {l : List α} {i : Nat} {a : α}
    (h : l[i]? = some a) : i < l.length :=
  (List.getElem?_eq_some_iff.mp h).1

theorem look_append_len {α : Type} (l : List α) (a : α) :
    (l ++ [a])[l.length]? = some a := by
  rw [List.getElem?_append_right (le_refl _)]
  simp

@[simp] theorem postedTo_nil (sid : Nat) : postedTo [] sid = [] := rfl

@[simp] theorem begunIn_nil (sid : Nat) : begunIn [] sid = [] := rfl

@[simp] theorem endedIn_nil (sid : Nat) : endedIn [] sid = [] := rfl

@[simp] theorem beganWorkers_nil (sid : Nat) : beganWorkers [] sid = [] := rfl

@[simp] theorem beganEvents_nil : beganEvents [] = [] := rfl

@[simp] theorem postedTo_append (tr tr2 : List Event) (sid : Nat) :
    postedTo (tr ++ tr2) sid = postedTo tr sid ++ postedTo tr2 sid :=
  List.filterMap_append tr tr2 _

@[simp] theorem begunIn_append (tr tr2 : List Event) (sid : Nat) :
    begunIn (tr ++ tr2) sid = begunIn tr sid ++ begunIn tr2 sid :=
  List.filterMap_append tr tr2 _

@[simp] theorem endedIn_append (tr tr2 : List Event) (sid : Nat) :
    endedIn (tr ++ tr2) sid = endedIn tr sid ++ endedIn tr2 sid :=
  List.filterMap_append tr tr2 _

@[simp] theorem beganWorkers_append (tr tr2 : List Event) (sid : Nat) :
    beganWorkers (tr ++ tr2) sid = beganWorkers tr sid ++ beganWorkers tr2 sid :=
  List.filterMap_append tr tr2 _

@[simp] theorem beganEvents_append (tr tr2 : List Event) :
    beganEvents (tr ++ tr2) = beganEvents tr ++ beganEvents tr2 :=
  List.filter_append tr tr2

@[simp] theorem postedTo_one_some (sid2 : Nat) (t : Task) (sid : Nat) :
    postedTo [Event.posted (some sid2) t] sid = if sid2 = sid then [t] else [] := by
  by_cases h : sid2 = sid <;> simp [postedTo, List.filterMap_cons, h]

@[simp] theorem postedTo_one_none (t : Task) (sid : Nat) :
    postedTo [Event.posted none t] sid = [] := by
  simp [postedTo, List.filterMap_cons]

@[simp] theorem postedTo_one_began (w : Nat) (u : WorkUnit) (sid : Nat) :
    postedTo [Event.began w u] sid = [] := by
  simp [postedTo, List.filterMap_cons]

@[simp] theorem postedTo_one_ended (w : Nat) (u : WorkUnit) (sid : Nat) :
    postedTo [Event.ended w u] sid = [] := by
  simp [postedTo, List.filterMap_cons]

@[simp] theorem begunIn_one_posted (osid : Option Nat) (t : Task) (sid : Nat) :
    begunIn [Event.posted osid t] sid = [] := by
  cases osid <;> simp [begunIn, List.filterMap_cons]

@[simp] theorem begunIn_one_began_bare (w : Nat) (t : Task) (sid : Nat) :
    begunIn [Event.began w (WorkUnit.bare t)] sid = [] := by
  simp [begunIn, List.filterMap_cons]

@[simp] theorem begunIn_one_began_seq (w : Nat) (sid2 : Nat) (t : Task)
    (sid : Nat) :
    begunIn [Event.began w (WorkUnit.seqTask sid2 t)] sid =
      if sid2 = sid then [t] else [] := by
  by_cases h : sid2 = sid <;> simp [begunIn, List.filterMap_cons, h]

@[simp] theorem begunIn_one_ended (w : Nat) (u : WorkUnit) (sid : Nat) :
    begunIn [Event.ended w u] sid = [] := by
  simp [begunIn, List.filterMap_cons]

@[simp] theorem endedIn_one_posted (osid : Option Nat) (t : Task) (sid : Nat) :
    endedIn [Event.posted osid t] sid = [] := by
  cases osid <;> simp [endedIn, List.filterMap_cons]

@[simp] theorem endedIn_one_began (w : Nat) (u : WorkUnit) (sid : Nat) :
    endedIn [Event.began w u] sid = [] := by
  simp [endedIn, List.filterMap_cons]

@[simp] theorem endedIn_one_ended_bare (w : Nat) (t : Task) (sid : Nat) :
    endedIn [Event.ended w (WorkUnit.bare t)] sid = [] := by
  simp [endedIn, List.filterMap_cons]

@[simp] theorem endedIn_one_ended_seq (w : Nat) (sid2 : Nat) (t : Task)
    (sid : Nat) :
    endedIn [Event.ended w (WorkUnit.seqTask sid2 t)] sid =
      if sid2 = sid then [t] else [] := by
  by_cases h : sid2 = sid <;> simp [endedIn, List.filterMap_cons, h]

@[simp] theorem beganWorkers_one_posted (osid : Option Nat) (t : Task) (sid : Nat) :
    beganWorkers [Event.posted osid t] sid = [] := by
  cases osid <;> simp [beganWorkers, List.filterMap_cons]

@[simp] theorem beganWorkers_one_began_bare (w : Nat) (t : Task) (sid : Nat) :
    beganWorkers [Event.began w (WorkUnit.bare t)] sid = [] := by
  simp [beganWorkers, List.filterMap_cons]

@[simp] theorem beganWorkers_one_began_seq (w : Nat) (sid2 : Nat) (t : Task)
    (sid : Nat) :
    beganWorkers [Event.began w (WorkUnit.seqTask sid2 t)] sid =
      if sid2 = sid then [w] else [] := by
  by_cases h : sid2 = sid <;> simp [beganWorkers, List.filterMap_cons, h]

@[simp] theorem beganWorkers_one_ended (w : Nat) (u : WorkUnit) (sid : Nat) :
    beganWorkers [Event.ended w u] sid = [] := by
  simp [beganWorkers, List.filterMap_cons]

@[simp] theorem beganEvents_one_posted (osid : Option Nat) (t : Task) :
    beganEvents [Event.posted osid t] = [] := by
  simp [beganEvents, List.filter_cons]

@[simp] theorem beganEvents_one_ended (w : Nat) (u : WorkUnit) :
    beganEvents [Event.ended w u] = [] := by
  simp [beganEvents, List.filter_cons]

theorem runningSeqTask_set_iff (workers : List Worker) (wid : Nat)
    (w2 : Worker) (hlt : wid < workers.length) (wid2 : Nat) (sid : Nat)
    (t : Task) :
    runningSeqTask (workers.set wid w2) wid2 sid t ↔
      ((wid2 = wid ∧ w2.wstate = WorkerState.running (WorkUnit.seqTask sid t)) ∨
        (wid2 ≠ wid ∧ runningSeqTask workers wid2 sid t)) := by
  by_cases h : wid2 = wid
  · subst h
    unfold runningSeqTask
    rw [List.getElem?_set_self hlt]
    constructor
    · rintro ⟨w, hw, hst⟩
      exact Or.inl ⟨rfl, by cases hw; exact hst⟩
    · rintro (⟨_, hst⟩ | ⟨hne, _⟩)
      · exact ⟨w2, rfl, hst⟩
      · exact absurd rfl hne
  · unfold runningSeqTask
    rw [List.getElem?_set_ne (fun heq => h heq.symm)]
    constructor
    · rintro ⟨w, hw, hst⟩
      exact Or.inr ⟨h, w, hw, hst⟩
    · rintro (⟨heq, _⟩ | ⟨_, w, hw, hst⟩)
      · exact absurd heq h
      · exact ⟨w, hw, hst⟩

/-- The inductive invariant of the scheduler model, tying the thread-local
environments, the per-Sequence state machines, the ready queue and the
trace together. -/
structure Inv (s : SchedState) : Prop where
  env_ok : ∀ (wid : Nat) (w : Worker), s.workers[wid]? = some w →
    (∀ u : WorkUnit, w.wstate = WorkerState.running u → w.env = envFor u.task.traits) ∧
    (w.wstate = WorkerState.idle → w.env = envNormal) ∧
    (w.wstate = WorkerState.exited → w.env = envNormal)
  runner_wf : ∀ (rid : Nat) (r : TaskRunner), s.runners[rid]? = some r →
    (r.mode = ExecutionMode.PARALLEL ↔ r.seq = none) ∧
    (∀ sid : Nat, r.seq = some sid → ∃ sq : Sequence, s.seqs[sid]? = some sq ∧
      sq.single = decide (r.mode = ExecutionMode.SINGLE_THREADED) ∧
      sq.pool = r.traits.priority)
  posted_split : ∀ (sid : Nat) (sq : Sequence), s.seqs[sid]? = some sq →
    postedTo s.trace sid = begunIn s.trace sid ++ sq.queue
  running_sync : ∀ (sid : Nat) (sq : Sequence), s.seqs[sid]? = some sq →
    (sq.sstate = SeqState.RUNNING →
      ∃ (wid : Nat) (t : Task), runningSeqTask s.workers wid sid t ∧
        begunIn s.trace sid = endedIn s.trace sid ++ [t] ∧
        ∀ (wid2 : Nat) (t2 : Task),
          runningSeqTask s.workers wid2 sid t2 → wid2 = wid ∧ t2 = t) ∧
    (sq.sstate ≠ SeqState.RUNNING →
      begunIn s.trace sid = endedIn s.trace sid ∧
      ∀ (wid : Nat) (t : Task), ¬ runningSeqTask s.workers wid sid t)
  ready_queued : ∀ (p : TaskPriority) (sid : Nat),
    (p, ReadyUnit.seqRef sid) ∈ s.ready →
    ∃ sq : Sequence, s.seqs[sid]? = some sq ∧ sq.sstate = SeqState.QUEUED ∧ p = sq.pool
  ready_unique : ∀ sid : Nat,
    s.ready.countP (fun e => decide (e.2 = ReadyUnit.seqRef sid)) ≤ 1
  single_bound : ∀ (sid : Nat) (sq : Sequence), s.seqs[sid]? = some sq →
    sq.single = true →
    ∀ w ∈ beganWorkers s.trace sid, sq.bound = some w
  oob_trace : ∀ sid : Nat, s.seqs.length ≤ sid →
    postedTo s.trace sid = [] ∧ begunIn s.trace sid = [] ∧
      endedIn s.trace sid = [] ∧ beganWorkers s.trace sid = []
  running_lt : ∀ (wid : Nat) (sid : Nat) (t : Task),
    runningSeqTask s.workers wid sid t → sid < s.seqs.length
  join_ok : s.joined = true →
    s.shutdown = true ∧ ∀ w ∈ s.workers, w.wstate = WorkerState.exited

theorem inv_init (ws : List TaskPriority) : Inv (initState ws) := by
  constructor
  · intro wid w hw
    have hmem : w ∈ ws.map mkWorker := mem_of_look hw
    obtain ⟨p, _, rfl⟩ := List.mem_map.mp hmem
    refine ⟨?_, ?_, ?_⟩
    · intro u hu
      exact absurd hu (by simp [mkWorker])
    · intro _
      rfl
    · intro h
      exact absurd h (by simp [mkWorker])
  · intro rid r hr
    simp [initState] at hr
  · intro sid sq hsq
    simp [initState] at hsq
  · intro sid sq hsq
    simp [initState] at hsq
  · intro p sid hmem
    simp [initState] at hmem
  · intro sid
    simp [initState]
  · intro sid sq hsq
    simp [initState] at hsq
  · intro sid _
    simp [initState]
  · intro wid sid t hrun
    obtain ⟨w, hw, hst⟩ := hrun
    have hmem : w ∈ ws.map mkWorker := mem_of_look hw
    obtain ⟨p, _, rfl⟩ := List.mem_map.mp hmem
    exact absurd hst (by simp [mkWorker])
  · intro hj
    exact absurd hj (by simp [initState])

theorem runningSame_iff (workers : List Worker) (wid : Nat)
    (wold w2 : Worker) (sid : Nat)
    (hw : workers[wid]? = some wold)
    (hold : ∀ t : Task, wold.wstate ≠ WorkerState.running (WorkUnit.seqTask sid t))
    (hnew : ∀ t : Task, w2.wstate ≠ WorkerState.running (WorkUnit.seqTask sid t)) :
    ∀ (wid2 : Nat) (t : Task),
      runningSeqTask (workers.set wid w2) wid2 sid t ↔
        runningSeqTask workers wid2 sid t := by
  intro wid2 t
  rw [runningSeqTask_set_iff workers wid w2 (lt_of_look hw) wid2 sid t]
  constructor
  · rintro (⟨_, hst⟩ | ⟨_, hr⟩)
    · exact absurd hst (hnew t)
    · exact hr
  · intro hr
    right
    refine ⟨?_, hr⟩
    rintro rfl
    obtain ⟨w3, hw3, hst3⟩ := hr
    rw [hw] at hw3
    cases hw3
    exact hold t hst3

/-- Transport of the `running_sync` clause along equalities of the running
predicate and of the trace projections. -/
theorem rs_transport (sstate : SeqState) (workersA workersB : List Worker)
    (trA trB : List Event) (sid : Nat)
    (hiff : ∀ (wid : Nat) (t : Task),
      runningSeqTask workersB wid sid t ↔ runningSeqTask workersA wid sid t)
    (hbeg : begunIn trB sid = begunIn trA sid)
    (hend : endedIn trB sid = endedIn trA sid)
    (hA : (sstate = SeqState.RUNNING →
        ∃ (wid : Nat) (t : Task), runningSeqTask workersA wid sid t ∧
          begunIn trA sid = endedIn trA sid ++ [t] ∧
          ∀ (wid2 : Nat) (t2 : Task),
            runningSeqTask workersA wid2 sid t2 → wid2 = wid ∧ t2 = t) ∧
      (sstate ≠ SeqState.RUNNING →
        begunIn trA sid = endedIn trA sid ∧
        ∀ (wid : Nat) (t : Task), ¬ runningSeqTask workersA wid sid t)) :
    (sstate = SeqState.RUNNING →
      ∃ (wid : Nat) (t : Task), runningSeqTask workersB wid sid t ∧
        begunIn trB sid = endedIn trB sid ++ [t] ∧
        ∀ (wid2 : Nat) (t2 : Task),
          runningSeqTask workersB wid2 sid t2 → wid2 = wid ∧ t2 = t) ∧
    (sstate ≠ SeqState.RUNNING →
      begunIn trB sid = endedIn trB sid ∧
      ∀ (wid : Nat) (t : Task), ¬ runningSeqTask workersB wid sid t) := by
  constructor
  · intro hrun
    obtain ⟨wid, t, h1, h2, h3⟩ := hA.1 hrun
    refine ⟨wid, t, (hiff wid t).mpr h1, ?_, ?_⟩
    · rw [hbeg, hend]
      exact h2
    · intro wid2 t2 hr
      exact h3 wid2 t2 ((hiff wid2 t2).mp hr)
  · intro hns
    obtain ⟨h1, h2⟩ := hA.2 hns
    refine ⟨?_, ?_⟩
    · rw [hbeg, hend]
      exact h1
    · intro wid t hr
      exact h2 wid t ((hiff wid t).mp hr)

theorem inv_requestShutdown (s : SchedState) (hI : Inv s) : Inv (joinRequest s) := by
  obtain ⟨e1, r1, p1, rs1, rq1, ru1, sb1, ob1, rl1, j1⟩ := hI
  exact ⟨e1, r1, p1, rs1, rq1, ru1, sb1, ob1, rl1, fun hj => ⟨rfl, (j1 hj).2⟩⟩

theorem inv_joinReturn (s : SchedState) (hI : Inv s)
    (hsd : s.shutdown = true)
    (hall : ∀ w ∈ s.workers, w.wstate = WorkerState.exited) :
    Inv { s with joined := true } := by
  obtain ⟨e1, r1, p1, rs1, rq1, ru1, sb1, ob1, rl1, _⟩ := hI
  exact ⟨e1, r1, p1, rs1, rq1, ru1, sb1, ob1, rl1, fun _ => ⟨hsd, hall⟩⟩

theorem inv_workerExit (s : SchedState) (wid : Nat) (w : Worker)
    (hI : Inv s)
    (hw : s.workers[wid]? = some w)
    (hidle : w.wstate = WorkerState.idle) :
    Inv { s with
      workers := s.workers.set wid ⟨w.pool, WorkerState.exited, w.env⟩ } := by
  have hlt : wid < s.workers.length := lt_of_look hw
  have henv : w.env = envNormal := ((hI.env_ok wid w hw).2.1) hidle
  have hiff : ∀ (sid : Nat) (wid2 : Nat) (t : Task),
      runningSeqTask (s.workers.set wid ⟨w.pool, WorkerState.exited, w.env⟩)
        wid2 sid t ↔ runningSeqTask s.workers wid2 sid t := by
    intro sid
    refine runningSame_iff s.workers wid w _ sid hw ?_ ?_
    · intro t hst
      rw [hidle] at hst
      cases hst
    · intro t hst
      cases hst
  constructor
  · intro wid2 w2 hw2
    by_cases h : wid2 = wid
    · subst h
      rw [List.getElem?_set_self hlt] at hw2
      cases hw2
      refine ⟨?_, ?_, ?_⟩
      · intro u hu
        cases hu
      · intro hcontra
        cases hcontra
      · intro _
        exact henv
    · rw [List.getElem?_set_ne (fun heq => h heq.symm)] at hw2
      exact hI.env_ok wid2 w2 hw2
  · exact hI.runner_wf
  · exact hI.posted_split
  · intro sid sq hsq
    exact rs_transport sq.sstate s.workers _ s.trace s.trace sid (hiff sid) rfl rfl
      (hI.running_sync sid sq hsq)
  · exact hI.ready_queued
  · exact hI.ready_unique
  · exact hI.single_bound
  · exact hI.oob_trace
  · intro wid2 sid t hr
    exact hI.running_lt wid2 sid t ((hiff sid wid2 t).mp hr)
  · intro hj
    have := hI.join_ok hj
    have hmem : w ∈ s.workers := mem_of_look hw
    have := this.2 w hmem
    rw [hidle] at this
    cases this

theorem look_none {α : Type} (l : List α) (i : Nat) (h : l.length ≤ i) :
    l[i]? = none := by
  rw [List.getElem?_eq_none_iff]
  exact h

theorem inv_createRunner_nonpar (s : SchedState) (traits : TaskTraits)
    (mode : ExecutionMode) (hI : Inv s)
    (hmode : mode ≠ ExecutionMode.PARALLEL) :
    Inv { s with
      runners := s.runners ++ [⟨traits, mode, some s.seqs.length⟩],
      seqs := s.seqs ++
        [⟨traits.priority, decide (mode = ExecutionMode.SINGLE_THREADED),
          [], SeqState.EMPTY, none⟩] } := by
  constructor
  · exact hI.env_ok
  · intro rid r hr
    rcases Nat.lt_trichotomy rid s.runners.length with h | h | h
    · rw [List.getElem?_append_left h] at hr
      obtain ⟨h1, h2⟩ := hI.runner_wf rid r hr
      refine ⟨h1, ?_⟩
      intro sid hsid
      obtain ⟨sq, hsq, hsingle, hpool⟩ := h2 sid hsid
      exact ⟨sq, by rw [List.getElem?_append_left (lt_of_look hsq)]; exact hsq,
        hsingle, hpool⟩
    · subst h
      rw [look_append_len] at hr
      cases hr
      refine ⟨⟨fun hp => absurd hp hmode, fun hn => by cases hn⟩, ?_⟩
      intro sid hsid
      cases hsid
      exact ⟨_, look_append_len s.seqs _, rfl, rfl⟩
    · rw [look_none _ _ (by simp; omega)] at hr
      cases hr
  · intro sid sq hsq
    rcases Nat.lt_trichotomy sid s.seqs.length with h | h | h
    · rw [List.getElem?_append_left h] at hsq
      exact hI.posted_split sid sq hsq
    · subst h
      rw [look_append_len] at hsq
      cases hsq
      have hoob := hI.oob_trace s.seqs.length (le_refl _)
      rw [hoob.1, hoob.2.1]
      rfl
    · rw [look_none _ _ (by simp; omega)] at hsq
      cases hsq
  · intro sid sq hsq
    rcases Nat.lt_trichotomy sid s.seqs.length with h | h | h
    · rw [List.getElem?_append_left h] at hsq
      exact hI.running_sync sid sq hsq
    · subst h
      rw [look_append_len] at hsq
      cases hsq
      constructor
      · intro hrun
        cases hrun
      · intro _
        have hoob := hI.oob_trace s.seqs.length (le_refl _)
        refine ⟨by rw [hoob.2.1, hoob.2.2.1], ?_⟩
        intro wid t hr
        exact absurd (hI.running_lt wid s.seqs.length t hr) (lt_irrefl _)
    · rw [look_none _ _ (by simp; omega)] at hsq
      cases hsq
  · intro p sid hmem
    obtain ⟨sq, hsq, hst, hp⟩ := hI.ready_queued p sid hmem
    exact ⟨sq, by rw [List.getElem?_append_left (lt_of_look hsq)]; exact hsq, hst, hp⟩
  · exact hI.ready_unique
  · intro sid sq hsq hsingle
    rcases Nat.lt_trichotomy sid s.seqs.length with h | h | h
    · rw [List.getElem?_append_left h] at hsq
      exact hI.single_bound sid sq hsq hsingle
    · subst h
      rw [look_append_len] at hsq
      cases hsq
      intro w hw
      rw [(hI.oob_trace s.seqs.length (le_refl _)).2.2.2] at hw
      cases hw
    · rw [look_none _ _ (by simp; omega)] at hsq
      cases hsq
  · intro sid hle
    refine hI.oob_trace sid ?_
    simp only [List.length_append, List.length_cons, List.length_nil] at hle
    omega
  · intro wid sid t hr
    have := hI.running_lt wid sid t hr
    simp only [List.length_append, List.length_cons, List.length_nil]
    omega
  · exact hI.join_ok

theorem inv_createRunner_par (s : SchedState) (traits : TaskTraits) (hI : Inv s) :
    Inv { s with
      runners := s.runners ++ [⟨traits, ExecutionMode.PARALLEL, none⟩] } := by
  constructor
  · exact hI.env_ok
  · intro rid r hr
    rcases Nat.lt_trichotomy rid s.runners.length with h | h | h
    · rw [List.getElem?_append_left h] at hr
      exact hI.runner_wf rid r hr
    · subst h
      rw [look_append_len] at hr
      cases hr
      refine ⟨⟨fun _ => rfl, fun _ => rfl⟩, ?_⟩
      intro sid hsid
      cases hsid
    · rw [look_none _ _ (by simp; omega)] at hr
      cases hr
  · exact hI.posted_split
  · exact hI.running_sync
  · exact hI.ready_queued
  · exact hI.ready_unique
  · exact hI.single_bound
  · exact hI.oob_trace
  · exact hI.running_lt
  · exact hI.join_ok

theorem inv_createRunner (s : SchedState) (traits : TaskTraits)
    (mode : ExecutionMode) (hI : Inv s) :
    Inv (s.createTaskRunnerWithTraits traits mode).1 := by
  cases mode with
  | PARALLEL =>
    exact inv_createRunner_par s traits hI
  | SEQUENCED =>
    exact inv_createRunner_nonpar s traits ExecutionMode.SEQUENCED hI (by intro h; cases h)
  | SINGLE_THREADED =>
    exact inv_createRunner_nonpar s traits ExecutionMode.SINGLE_THREADED hI
      (by intro h; cases h)

theorem inv_post_bare (s : SchedState) (traits : TaskTraits) (hI : Inv s) :
    Inv { s with
      ready := s.ready ++ [(traits.priority, ReadyUnit.bare ⟨s.nextTaskId, traits⟩)],
      nextTaskId := s.nextTaskId + 1,
      trace := s.trace ++ [Event.posted none ⟨s.nextTaskId, traits⟩] } := by
  constructor
  · exact hI.env_ok
  · exact hI.runner_wf
  · intro sid sq hsq
    simp only [postedTo_append, postedTo_one_none, begunIn_append, begunIn_one_posted,
      List.append_nil]
    exact hI.posted_split sid sq hsq
  · intro sid sq hsq
    refine rs_transport sq.sstate s.workers s.workers _ _ sid (fun _ _ => Iff.rfl)
      ?_ ?_ (hI.running_sync sid sq hsq)
    · simp
    · simp
  · intro p sid hmem
    rcases List.mem_append.mp hmem with h | h
    · exact hI.ready_queued p sid h
    · simp at h
  · intro sid
    rw [List.countP_append]
    have h0 : List.countP (fun e => decide (e.2 = ReadyUnit.seqRef sid))
        [(traits.priority, ReadyUnit.bare (⟨s.nextTaskId, traits⟩ : Task))] = 0 := by
      simp [List.countP_cons]
    rw [h0, Nat.add_zero]
    exact hI.ready_unique sid
  · intro sid sq hsq hsingle
    simp only [beganWorkers_append, beganWorkers_one_posted, List.append_nil]
    exact hI.single_bound sid sq hsq hsingle
  · intro sid hle
    have hold := hI.oob_trace sid hle
    simp only [postedTo_append, begunIn_append, endedIn_append, beganWorkers_append,
      postedTo_one_none, begunIn_one_posted, endedIn_one_posted, beganWorkers_one_posted,
      List.append_nil]
    exact hold
  · exact hI.running_lt
  · exact hI.join_ok

theorem inv_post_seq (s : SchedState) (traits : TaskTraits) (sid : Nat)
    (sq : Sequence) (hsq : s.seqs[sid]? = some sq) (hI : Inv s) :
    Inv { s with
      seqs := s.seqs.set sid
        { sq with
            queue := sq.queue ++ [⟨s.nextTaskId, traits⟩],
            sstate := if sq.sstate = SeqState.EMPTY then SeqState.QUEUED
              else sq.sstate },
      ready := if sq.sstate = SeqState.EMPTY then
          s.ready ++ [(sq.pool, ReadyUnit.seqRef sid)]
        else s.ready,
      nextTaskId := s.nextTaskId + 1,
      trace := s.trace ++ [Event.posted (some sid) ⟨s.nextTaskId, traits⟩] } := by
  have hlt : sid < s.seqs.length := lt_of_look hsq
  have hrunner : ∀ (rid2 : Nat) (r2 : TaskRunner), s.runners[rid2]? = some r2 →
      (r2.mode = ExecutionMode.PARALLEL ↔ r2.seq = none) ∧
      (∀ sid2 : Nat, r2.seq = some sid2 → ∃ sq2 : Sequence,
        (s.seqs.set sid
          { sq with
              queue := sq.queue ++ [⟨s.nextTaskId, traits⟩],
              sstate := if sq.sstate = SeqState.EMPTY then SeqState.QUEUED
                else sq.sstate })[sid2]? = some sq2 ∧
        sq2.single = decide (r2.mode = ExecutionMode.SINGLE_THREADED) ∧
        sq2.pool = r2.traits.priority) := by
    intro rid2 r2 hr2
    obtain ⟨h1, h2⟩ := hI.runner_wf rid2 r2 hr2
    refine ⟨h1, ?_⟩
    intro sid2 hsid2
    obtain ⟨sq2, hsq2, hsingle2, hpool2⟩ := h2 sid2 hsid2
    by_cases h : sid2 = sid
    · subst h
      rw [hsq] at hsq2
      cases hsq2
      exact ⟨_, List.getElem?_set_self hlt, hsingle2, hpool2⟩
    · exact ⟨sq2, by rw [List.getElem?_set_ne (fun heq => h heq.symm)]; exact hsq2,
        hsingle2, hpool2⟩
  have hsplit : ∀ (sid2 : Nat) (sq2 : Sequence),
      (s.seqs.set sid
        { sq with
            queue := sq.queue ++ [⟨s.nextTaskId, traits⟩],
            sstate := if sq.sstate = SeqState.EMPTY then SeqState.QUEUED
              else sq.sstate })[sid2]? = some sq2 →
      postedTo (s.trace ++ [Event.posted (some sid) ⟨s.nextTaskId, traits⟩]) sid2 =
        begunIn (s.trace ++ [Event.posted (some sid) ⟨s.nextTaskId, traits⟩]) sid2 ++
          sq2.queue := by
    intro sid2 sq2 hsq2
    by_cases h : sid2 = sid
    · subst h
      rw [List.getElem?_set_self hlt] at hsq2
      cases hsq2
      simp only [postedTo_append, postedTo_one_some, begunIn_append, begunIn_one_posted,
        List.append_nil]
      rw [hI.posted_split sid2 sq hsq, List.append_assoc]
      simp
    · rw [List.getElem?_set_ne (fun heq => h heq.symm)] at hsq2
      have hne : sid ≠ sid2 := fun heq => h heq.symm
      simp only [postedTo_append, postedTo_one_some, begunIn_append, begunIn_one_posted,
        List.append_nil, if_neg hne]
      exact hI.posted_split sid2 sq2 hsq2
  have hoob : ∀ sid2 : Nat,
      (s.seqs.set sid
        { sq with
            queue := sq.queue ++ [⟨s.nextTaskId, traits⟩],
            sstate := if sq.sstate = SeqState.EMPTY then SeqState.QUEUED
              else sq.sstate }).length ≤ sid2 →
      postedTo (s.trace ++ [Event.posted (some sid) ⟨s.nextTaskId, traits⟩]) sid2 = [] ∧
      begunIn (s.trace ++ [Event.posted (some sid) ⟨s.nextTaskId, traits⟩]) sid2 = [] ∧
      endedIn (s.trace ++ [Event.posted (some sid) ⟨s.nextTaskId, traits⟩]) sid2 = [] ∧
      beganWorkers (s.trace ++ [Event.posted (some sid) ⟨s.nextTaskId, traits⟩]) sid2
        = [] := by
    intro sid2 hle
    simp only [List.length_set] at hle
    have hold := hI.oob_trace sid2 hle
    have hne : sid ≠ sid2 := by omega
    simp only [postedTo_append, begunIn_append, endedIn_append, beganWorkers_append,
      postedTo_one_some, begunIn_one_posted, endedIn_one_posted, beganWorkers_one_posted,
      List.append_nil, if_neg hne]
    exact hold
  have hsingle : ∀ (sid2 : Nat) (sq2 : Sequence),
      (s.seqs.set sid
        { sq with
            queue := sq.queue ++ [⟨s.nextTaskId, traits⟩],
            sstate := if sq.sstate = SeqState.EMPTY then SeqState.QUEUED
              else sq.sstate })[sid2]? = some sq2 → sq2.single = true →
      ∀ w ∈ beganWorkers
          (s.trace ++ [Event.posted (some sid) ⟨s.nextTaskId, traits⟩]) sid2,
        sq2.bound = some w := by
    intro sid2 sq2 hsq2 hs2
    simp only [beganWorkers_append, beganWorkers_one_posted, List.append_nil]
    by_cases h : sid2 = sid
    · subst h
      rw [List.getElem?_set_self hlt] at hsq2
      cases hsq2
      exact hI.single_bound sid2 sq hsq hs2
    · rw [List.getElem?_set_ne (fun heq => h heq.symm)] at hsq2
      exact hI.single_bound sid2 sq2 hsq2 hs2
  have hsync : ∀ (sid2 : Nat) (sq2 : Sequence),
      (s.seqs.set sid
        { sq with
            queue := sq.queue ++ [⟨s.nextTaskId, traits⟩],
            sstate := if sq.sstate = SeqState.EMPTY then SeqState.QUEUED
              else sq.sstate })[sid2]? = some sq2 →
      (sq2.sstate = SeqState.RUNNING →
        ∃ (wid : Nat) (t : Task), runningSeqTask s.workers wid sid2 t ∧
          begunIn (s.trace ++ [Event.posted (some sid) ⟨s.nextTaskId, traits⟩]) sid2 =
            endedIn (s.trace ++ [Event.posted (some sid) ⟨s.nextTaskId, traits⟩]) sid2
              ++ [t] ∧
          ∀ (wid2 : Nat) (t2 : Task),
            runningSeqTask s.workers wid2 sid2 t2 → wid2 = wid ∧ t2 = t) ∧
      (sq2.sstate ≠ SeqState.RUNNING →
        begunIn (s.trace ++ [Event.posted (some sid) ⟨s.nextTaskId, traits⟩]) sid2 =
          endedIn (s.trace ++ [Event.posted (some sid) ⟨s.nextTaskId, traits⟩]) sid2 ∧
        ∀ (wid : Nat) (t : Task), ¬ runningSeqTask s.workers wid sid2 t) := by
    intro sid2 sq2 hsq2
    by_cases h : sid2 = sid
    · subst h
      rw [List.getElem?_set_self hlt] at hsq2
      cases hsq2
      by_cases hE : sq.sstate = SeqState.EMPTY
      · constructor
        · intro hrun
          rw [if_pos hE] at hrun
          exact SeqState.noConfusion hrun
        · intro _
          have hold := (hI.running_sync sid2 sq hsq).2
            (by rw [hE]; exact fun hc => SeqState.noConfusion hc)
          refine ⟨?_, hold.2⟩
          simp only [begunIn_append, begunIn_one_posted, endedIn_append,
            endedIn_one_posted, List.append_nil]
          exact hold.1
      · refine rs_transport (if sq.sstate = SeqState.EMPTY then SeqState.QUEUED
            else sq.sstate) s.workers s.workers s.trace _ sid2 (fun _ _ => Iff.rfl)
            ?_ ?_ ?_
        · simp
        · simp
        · rw [if_neg hE]
          exact hI.running_sync sid2 sq hsq
    · rw [List.getElem?_set_ne (fun heq => h heq.symm)] at hsq2
      have hne : sid ≠ sid2 := fun heq => h heq.symm
      refine rs_transport sq2.sstate s.workers s.workers s.trace _ sid2
        (fun _ _ => Iff.rfl) ?_ ?_ (hI.running_sync sid2 sq2 hsq2)
      · simp
      · simp
  by_cases hE : sq.sstate = SeqState.EMPTY
  · simp only [if_pos hE]
    simp only [if_pos hE] at hrunner hsplit hoob hsingle hsync
    constructor
    · exact hI.env_ok
    · exact hrunner
    · exact hsplit
    · exact hsync
    · intro p sid2 hmem
      rcases List.mem_append.mp hmem with hm | hm
      · obtain ⟨sq2, hsq2, hst2, hp2⟩ := hI.ready_queued p sid2 hm
        by_cases h : sid2 = sid
        · subst h
          rw [hsq] at hsq2
          cases hsq2
          rw [hE] at hst2
          exact absurd hst2 (fun hc => SeqState.noConfusion hc)
        · exact ⟨sq2, by rw [List.getElem?_set_ne (fun heq => h heq.symm)]; exact hsq2,
            hst2, hp2⟩
      · simp at hm
        obtain ⟨hp, hsid⟩ := hm
        subst hsid
        exact ⟨_, List.getElem?_set_self hlt, rfl, hp⟩
    · intro sid2
      rw [List.countP_append]
      by_cases h : sid2 = sid
      · subst h
        have h0 : s.ready.countP (fun e => decide (e.2 = ReadyUnit.seqRef sid2)) = 0 := by
          rw [List.countP_eq_zero]
          intro e he hdec
          have he2 : e.2 = ReadyUnit.seqRef sid2 := of_decide_eq_true hdec
          have hmem2 : (e.1, ReadyUnit.seqRef sid2) ∈ s.ready := by
            rw [← he2]
            exact he
          obtain ⟨sq2, hsq2, hst2, _⟩ := hI.ready_queued e.1 sid2 hmem2
          rw [hsq] at hsq2
          cases hsq2
          rw [hE] at hst2
          exact SeqState.noConfusion hst2
        rw [h0]
        simp [List.countP_cons]
      · have h1 : List.countP (fun e => decide (e.2 = ReadyUnit.seqRef sid2))
            [(sq.pool, ReadyUnit.seqRef sid)] = 0 := by
          rw [List.countP_eq_zero]
          intro e he hdec
          have he2 : e.2 = ReadyUnit.seqRef sid2 := of_decide_eq_true hdec
          simp at he
          subst he
          simp at he2
          exact h he2.symm
        rw [h1, Nat.add_zero]
        exact hI.ready_unique sid2
    · exact hsingle
    · exact hoob
    · intro wid sid2 t hr
      simp only [List.length_set]
      exact hI.running_lt wid sid2 t hr
    · exact hI.join_ok
  · simp only [if_neg hE]
    simp only [if_neg hE] at hrunner hsplit hoob hsingle hsync
    constructor
    · exact hI.env_ok
    · exact hrunner
    · exact hsplit
    · exact hsync
    · intro p sid2 hmem
      obtain ⟨sq2, hsq2, hst2, hp2⟩ := hI.ready_queued p sid2 hmem
      by_cases h : sid2 = sid
      · subst h
        rw [hsq] at hsq2
        cases hsq2
        exact ⟨_, List.getElem?_set_self hlt, hst2, hp2⟩
      · exact ⟨sq2, by rw [List.getElem?_set_ne (fun heq => h heq.symm)]; exact hsq2,
          hst2, hp2⟩
    · exact hI.ready_unique
    · exact hsingle
    · exact hoob
    · intro wid sid2 t hr
      simp only [List.length_set]
      exact hI.running_lt wid sid2 t hr
    · exact hI.join_ok

theorem inv_post (s : SchedState) (rid : Nat) (hI : Inv s) :
    Inv (s.postTaskViaRunner rid).1 := by
  cases hr : s.runners[rid]? with
  | none =>
    have heq : (s.postTaskViaRunner rid).1 = s := by
      unfold SchedState.postTaskViaRunner
      rw [hr]
    rw [heq]
    exact hI
  | some r =>
    by_cases hsd : s.shutdown = true
    · have heq : (s.postTaskViaRunner rid).1 = s := by
        unfold SchedState.postTaskViaRunner
        rw [hr]
        simp [hsd]
      rw [heq]
      exact hI
    · cases hseq : r.seq with
      | none =>
        have heq : (s.postTaskViaRunner rid).1 = { s with
            ready := s.ready ++ [(r.traits.priority, ReadyUnit.bare ⟨s.nextTaskId, r.traits⟩)],
            nextTaskId := s.nextTaskId + 1,
            trace := s.trace ++ [Event.posted none ⟨s.nextTaskId, r.traits⟩] } := by
          unfold SchedState.postTaskViaRunner
          rw [hr]
          simp [hsd, hseq]
        rw [heq]
        exact inv_post_bare s r.traits hI
      | some sid =>
        cases hsq : s.seqs[sid]? with
        | none =>
          have heq : (s.postTaskViaRunner rid).1 = s := by
            unfold SchedState.postTaskViaRunner
            rw [hr]
            simp [hsd, hseq, hsq]
          rw [heq]
          exact hI
        | some sq =>
          have heq : (s.postTaskViaRunner rid).1 = { s with
              seqs := s.seqs.set sid
                { sq with
                    queue := sq.queue ++ [⟨s.nextTaskId, r.traits⟩],
                    sstate := if sq.sstate = SeqState.EMPTY then SeqState.QUEUED
                      else sq.sstate },
              ready := if sq.sstate = SeqState.EMPTY then
                  s.ready ++ [(sq.pool, ReadyUnit.seqRef sid)]
                else s.ready,
              nextTaskId := s.nextTaskId + 1,
              trace := s.trace ++ [Event.posted (some sid) ⟨s.nextTaskId, r.traits⟩] } := by
            unfold SchedState.postTaskViaRunner
            rw [hr]
            simp [hsd, hseq, hsq]
          rw [heq]
          exact inv_post_seq s r.traits sid sq hsq hI

theorem inv_postDirect (s : SchedState) (traits : TaskTraits) (hI : Inv s) :
    Inv (s.postTaskWithTraits traits).1 := by
  by_cases hsd : s.shutdown = true
  · have heq : (s.postTaskWithTraits traits).1 = s := by
      unfold SchedState.postTaskWithTraits
      simp [hsd]
    rw [heq]
    exact hI
  · have heq : (s.postTaskWithTraits traits).1 = { s with
        ready := s.ready ++ [(traits.priority, ReadyUnit.bare ⟨s.nextTaskId, traits⟩)],
        nextTaskId := s.nextTaskId + 1,
        trace := s.trace ++ [Event.posted none ⟨s.nextTaskId, traits⟩] } := by
      unfold SchedState.postTaskWithTraits
      simp [hsd]
    rw [heq]
    exact inv_post_bare s traits hI

theorem mem_of_mem_remove_mid {α : Type} {a b : α} {l1 l2 : List α}
    (h : a ∈ l1 ++ l2) : a ∈ l1 ++ b :: l2 := by
  rcases List.mem_append.mp h with h2 | h2
  · exact List.mem_append.mpr (Or.inl h2)
  · exact List.mem_append.mpr (Or.inr (List.mem_cons_of_mem b h2))

theorem inv_claimBare (s : SchedState) (wid : Nat) (w : Worker)
    (l1 l2 : List (TaskPriority × ReadyUnit)) (t : Task)
    (hI : Inv s)
    (hw : s.workers[wid]? = some w)
    (hidle : w.wstate = WorkerState.idle)
    (hready : s.ready = l1 ++ (w.pool, ReadyUnit.bare t) :: l2) :
    Inv { s with
      ready := l1 ++ l2,
      workers := s.workers.set wid
        ⟨w.pool, WorkerState.running (WorkUnit.bare t), envFor t.traits⟩,
      trace := s.trace ++ [Event.began wid (WorkUnit.bare t)] } := by
  have hlt : wid < s.workers.length := lt_of_look hw
  have hiff : ∀ (sid : Nat) (wid2 : Nat) (t2 : Task),
      runningSeqTask (s.workers.set wid
          ⟨w.pool, WorkerState.running (WorkUnit.bare t), envFor t.traits⟩)
        wid2 sid t2 ↔ runningSeqTask s.workers wid2 sid t2 := by
    intro sid
    refine runningSame_iff s.workers wid w _ sid hw ?_ ?_
    · intro t2 hst
      rw [hidle] at hst
      exact WorkerState.noConfusion hst
    · intro t2 hst
      have := WorkerState.running.inj hst
      exact WorkUnit.noConfusion this
  constructor
  · intro wid2 w2 hw2
    by_cases h : wid2 = wid
    · subst h
      rw [List.getElem?_set_self hlt] at hw2
      cases hw2
      refine ⟨?_, ?_, ?_⟩
      · intro u hu
        cases WorkerState.running.inj hu
        rfl
      · intro hc
        exact WorkerState.noConfusion hc
      · intro hc
        exact WorkerState.noConfusion hc
    · rw [List.getElem?_set_ne (fun heq => h heq.symm)] at hw2
      exact hI.env_ok wid2 w2 hw2
  · exact hI.runner_wf
  · intro sid sq hsq
    simp only [postedTo_append, postedTo_one_began, begunIn_append,
      begunIn_one_began_bare, List.append_nil]
    exact hI.posted_split sid sq hsq
  · intro sid sq hsq
    refine rs_transport sq.sstate s.workers _ s.trace _ sid (hiff sid) ?_ ?_
      (hI.running_sync sid sq hsq)
    · simp
    · simp
  · intro p sid hmem
    refine hI.ready_queued p sid ?_
    rw [hready]
    exact mem_of_mem_remove_mid hmem
  · intro sid
    have hold := hI.ready_unique sid
    rw [hready, List.countP_append, List.countP_cons] at hold
    rw [List.countP_append]
    omega
  · intro sid sq hsq hsingle
    simp only [beganWorkers_append, beganWorkers_one_began_bare, List.append_nil]
    exact hI.single_bound sid sq hsq hsingle
  · intro sid hle
    have hold := hI.oob_trace sid hle
    simp only [postedTo_append, begunIn_append, endedIn_append, beganWorkers_append,
      postedTo_one_began, begunIn_one_began_bare, endedIn_one_began,
      beganWorkers_one_began_bare, List.append_nil]
    exact hold
  · intro wid2 sid t2 hr
    exact hI.running_lt wid2 sid t2 ((hiff sid wid2 t2).mp hr)
  · intro hj
    have hold := hI.join_ok hj
    have := hold.2 w (mem_of_look hw)
    rw [hidle] at this
    exact WorkerState.noConfusion this

theorem inv_finishBare (s : SchedState) (wid : Nat) (w : Worker) (t : Task)
    (hI : Inv s)
    (hw : s.workers[wid]? = some w)
    (hrun : w.wstate = WorkerState.running (WorkUnit.bare t)) :
    Inv { s with
      workers := s.workers.set wid ⟨w.pool, WorkerState.idle, envNormal⟩,
      trace := s.trace ++ [Event.ended wid (WorkUnit.bare t)] } := by
  have hlt : wid < s.workers.length := lt_of_look hw
  have hiff : ∀ (sid : Nat) (wid2 : Nat) (t2 : Task),
      runningSeqTask (s.workers.set wid ⟨w.pool, WorkerState.idle, envNormal⟩)
        wid2 sid t2 ↔ runningSeqTask s.workers wid2 sid t2 := by
    intro sid
    refine runningSame_iff s.workers wid w _ sid hw ?_ ?_
    · intro t2 hst
      rw [hrun] at hst
      have := WorkerState.running.inj hst
      exact WorkUnit.noConfusion this
    · intro t2 hst
      exact WorkerState.noConfusion hst
  constructor
  · intro wid2 w2 hw2
    by_cases h : wid2 = wid
    · subst h
      rw [List.getElem?_set_self hlt] at hw2
      cases hw2
      refine ⟨?_, ?_, ?_⟩
      · intro u hu
        exact WorkerState.noConfusion hu
      · intro _
        rfl
      · intro hc
        exact WorkerState.noConfusion hc
    · rw [List.getElem?_set_ne (fun heq => h heq.symm)] at hw2
      exact hI.env_ok wid2 w2 hw2
  · exact hI.runner_wf
  · intro sid sq hsq
    simp only [postedTo_append, postedTo_one_ended, begunIn_append,
      begunIn_one_ended, List.append_nil]
    exact hI.posted_split sid sq hsq
  · intro sid sq hsq
    refine rs_transport sq.sstate s.workers _ s.trace _ sid (hiff sid) ?_ ?_
      (hI.running_sync sid sq hsq)
    · simp
    · simp
  · exact hI.ready_queued
  · exact hI.ready_unique
  · intro sid sq hsq hsingle
    simp only [beganWorkers_append, beganWorkers_one_ended, List.append_nil]
    exact hI.single_bound sid sq hsq hsingle
  · intro sid hle
    have hold := hI.oob_trace sid hle
    simp only [postedTo_append, begunIn_append, endedIn_append, beganWorkers_append,
      postedTo_one_ended, begunIn_one_ended, endedIn_one_ended_bare,
      beganWorkers_one_ended, List.append_nil]
    exact hold
  · intro wid2 sid t2 hr
    exact hI.running_lt wid2 sid t2 ((hiff sid wid2 t2).mp hr)
  · intro hj
    have hold := hI.join_ok hj
    have := hold.2 w (mem_of_look hw)
    rw [hrun] at this
    exact WorkerState.noConfusion this

theorem inv_claimSeq (s : SchedState) (wid : Nat) (w : Worker)
    (l1 l2 : List (TaskPriority × ReadyUnit)) (sid : Nat) (sq : Sequence)
    (t : Task) (rest : List Task)
    (hI : Inv s)
    (hw : s.workers[wid]? = some w)
    (hidle : w.wstate = WorkerState.idle)
    (hready : s.ready = l1 ++ (w.pool, ReadyUnit.seqRef sid) :: l2)
    (hsq : s.seqs[sid]? = some sq)
    (hbound : sq.bound = none ∨ sq.bound = some wid)
    (hq : sq.queue = t :: rest) :
    Inv { s with
      ready := l1 ++ l2,
      seqs := s.seqs.set sid
        { sq with
            queue := rest,
            sstate := SeqState.RUNNING,
            bound := if sq.single then some wid else sq.bound },
      workers := s.workers.set wid
        ⟨w.pool, WorkerState.running (WorkUnit.seqTask sid t), envFor t.traits⟩,
      trace := s.trace ++ [Event.began wid (WorkUnit.seqTask sid t)] } := by
  have hltw : wid < s.workers.length := lt_of_look hw
  have hlts : sid < s.seqs.length := lt_of_look hsq
  have hmid : (w.pool, ReadyUnit.seqRef sid) ∈ s.ready := by
    rw [hready]
    exact List.mem_append.mpr (Or.inr (List.mem_cons_self _ _))
  have hqd : sq.sstate = SeqState.QUEUED := by
    obtain ⟨sq2, hsq2, hst2, _⟩ := hI.ready_queued w.pool sid hmid
    rw [hsq] at hsq2
    cases hsq2
    exact hst2
  have hnr := (hI.running_sync sid sq hsq).2
    (by rw [hqd]; exact fun hc => SeqState.noConfusion hc)
  have hzero : List.countP (fun e => decide (e.2 = ReadyUnit.seqRef sid))
      (l1 ++ l2) = 0 := by
    have hu := hI.ready_unique sid
    rw [hready, List.countP_append, List.countP_cons] at hu
    rw [List.countP_append]
    simp only [decide_eq_true_eq] at hu
    simp at hu
    omega
  have hiff2 : ∀ sid2 : Nat, sid2 ≠ sid → ∀ (wid2 : Nat) (t2 : Task),
      runningSeqTask (s.workers.set wid
          ⟨w.pool, WorkerState.running (WorkUnit.seqTask sid t), envFor t.traits⟩)
        wid2 sid2 t2 ↔ runningSeqTask s.workers wid2 sid2 t2 := by
    intro sid2 hne
    refine runningSame_iff s.workers wid w _ sid2 hw ?_ ?_
    · intro t2 hst
      rw [hidle] at hst
      exact WorkerState.noConfusion hst
    · intro t2 hst
      have h2 := WorkUnit.seqTask.inj (WorkerState.running.inj hst)
      exact hne h2.1.symm
  constructor
  · intro wid2 w2 hw2
    by_cases h : wid2 = wid
    · subst h
      rw [List.getElem?_set_self hltw] at hw2
      cases hw2
      refine ⟨?_, ?_, ?_⟩
      · intro u hu
        cases WorkerState.running.inj hu
        rfl
      · intro hc
        exact WorkerState.noConfusion hc
      · intro hc
        exact WorkerState.noConfusion hc
    · rw [List.getElem?_set_ne (fun heq => h heq.symm)] at hw2
      exact hI.env_ok wid2 w2 hw2
  · intro rid2 r2 hr2
    obtain ⟨h1, h2⟩ := hI.runner_wf rid2 r2 hr2
    refine ⟨h1, ?_⟩
    intro sid2 hsid2
    obtain ⟨sq2, hsq2, hsingle2, hpool2⟩ := h2 sid2 hsid2
    by_cases h : sid2 = sid
    · subst h
      rw [hsq] at hsq2
      cases hsq2
      exact ⟨_, List.getElem?_set_self hlts, hsingle2, hpool2⟩
    · exact ⟨sq2, by rw [List.getElem?_set_ne (fun heq => h heq.symm)]; exact hsq2,
        hsingle2, hpool2⟩
  · intro sid2 sq2 hsq2
    by_cases h : sid2 = sid
    · subst h
      rw [List.getElem?_set_self hlts] at hsq2
      cases hsq2
      simp only [postedTo_append, postedTo_one_began, begunIn_append,
        begunIn_one_began_seq, List.append_nil, if_pos rfl]
      rw [hI.posted_split sid2 sq hsq, hq]
      simp
    · rw [List.getElem?_set_ne (fun heq => h heq.symm)] at hsq2
      have hne : sid ≠ sid2 := fun heq => h heq.symm
      simp only [postedTo_append, postedTo_one_began, begunIn_append,
        begunIn_one_began_seq, List.append_nil, if_neg hne]
      exact hI.posted_split sid2 sq2 hsq2
  · intro sid2 sq2 hsq2
    by_cases h : sid2 = sid
    · subst h
      rw [List.getElem?_set_self hlts] at hsq2
      cases hsq2
      constructor
      · intro _
        refine ⟨wid, t, ?_, ?_, ?_⟩
        · exact ⟨_, List.getElem?_set_self hltw, rfl⟩
        · simp only [begunIn_append, begunIn_one_began_seq, endedIn_append,
            endedIn_one_began, List.append_nil, if_pos rfl]
          rw [hnr.1]
          simp
        · intro wid2 t2 hr
          rw [runningSeqTask_set_iff s.workers wid _ hltw wid2 sid2 t2] at hr
          rcases hr with ⟨heq, hst⟩ | ⟨hne, hr2⟩
          · have h2 := WorkUnit.seqTask.inj (WorkerState.running.inj hst)
            exact ⟨heq, h2.2.symm⟩
          · exact absurd hr2 (hnr.2 wid2 t2)
      · intro hc
        exact absurd rfl hc
    · rw [List.getElem?_set_ne (fun heq => h heq.symm)] at hsq2
      have hne : sid ≠ sid2 := fun heq => h heq.symm
      refine rs_transport sq2.sstate s.workers _ s.trace _ sid2 (hiff2 sid2 h) ?_ ?_
        (hI.running_sync sid2 sq2 hsq2)
      · simp [if_neg hne]
      · simp
  · intro p sid2 hmem
    by_cases h : sid2 = sid
    · subst h
      have := List.countP_eq_zero.mp hzero _ hmem
      simp at this
    · have hmem2 : (p, ReadyUnit.seqRef sid2) ∈ s.ready := by
        rw [hready]
        exact mem_of_mem_remove_mid hmem
      obtain ⟨sq2, hsq2, hst2, hp2⟩ := hI.ready_queued p sid2 hmem2
      exact ⟨sq2, by rw [List.getElem?_set_ne (fun heq => h heq.symm)]; exact hsq2,
        hst2, hp2⟩
  · intro sid2
    have hold := hI.ready_unique sid2
    rw [hready, List.countP_append, List.countP_cons] at hold
    rw [List.countP_append]
    omega
  · intro sid2 sq2 hsq2 hs2
    by_cases h : sid2 = sid
    · subst h
      rw [List.getElem?_set_self hlts] at hsq2
      cases hsq2
      intro w2 hw2
      simp only [beganWorkers_append, beganWorkers_one_began_seq, if_pos rfl] at hw2
      rw [if_pos hs2]
      rcases List.mem_append.mp hw2 with hm | hm
      · have hb2 := hI.single_bound sid2 sq hsq hs2 w2 hm
        rcases hbound with hb | hb
        · rw [hb] at hb2
          exact Option.noConfusion hb2
        · rw [hb] at hb2
          exact hb2
      · simp at hm
        rw [hm]
    · rw [List.getElem?_set_ne (fun heq => h heq.symm)] at hsq2
      have hne : sid ≠ sid2 := fun heq => h heq.symm
      intro w2 hw2
      simp only [beganWorkers_append, beganWorkers_one_began_seq, if_neg hne,
        List.append_nil] at hw2
      exact hI.single_bound sid2 sq2 hsq2 hs2 w2 hw2
  · intro sid2 hle
    simp only [List.length_set] at hle
    have hold := hI.oob_trace sid2 hle
    have hne : sid ≠ sid2 := by omega
    simp only [postedTo_append, begunIn_append, endedIn_append, beganWorkers_append,
      postedTo_one_began, begunIn_one_began_seq, endedIn_one_began,
      beganWorkers_one_began_seq, List.append_nil, if_neg hne]
    exact hold
  · intro wid2 sid2 t2 hr
    simp only [List.length_set]
    rw [runningSeqTask_set_iff s.workers wid _ hltw wid2 sid2 t2] at hr
    rcases hr with ⟨_, hst⟩ | ⟨_, hr2⟩
    · have h2 := WorkUnit.seqTask.inj (WorkerState.running.inj hst)
      rw [← h2.1]
      exact hlts
    · exact hI.running_lt wid2 sid2 t2 hr2
  · intro hj
    have hold := hI.join_ok hj
    have := hold.2 w (mem_of_look hw)
    rw [hidle] at this
    exact WorkerState.noConfusion this

theorem inv_finishSeq (s : SchedState) (wid : Nat) (w : Worker) (sid : Nat)
    (sq : Sequence) (t : Task)
    (hI : Inv s)
    (hw : s.workers[wid]? = some w)
    (hrun : w.wstate = WorkerState.running (WorkUnit.seqTask sid t))
    (hsq : s.seqs[sid]? = some sq) :
    Inv { s with
      workers := s.workers.set wid ⟨w.pool, WorkerState.idle, envNormal⟩,
      seqs := s.seqs.set sid
        { sq with
            sstate := if sq.queue = [] then SeqState.EMPTY else SeqState.QUEUED },
      ready := if sq.queue = [] then s.ready
        else s.ready ++ [(sq.pool, ReadyUnit.seqRef sid)],
      trace := s.trace ++ [Event.ended wid (WorkUnit.seqTask sid t)] } := by
  have hltw : wid < s.workers.length := lt_of_look hw
  have hlts : sid < s.seqs.length := lt_of_look hsq
  have hrold : runningSeqTask s.workers wid sid t := ⟨w, hw, hrun⟩
  have hR : sq.sstate = SeqState.RUNNING := by
    by_contra hc
    exact ((hI.running_sync sid sq hsq).2 hc).2 wid t hrold
  obtain ⟨widR, tR, hrR, hbe, huniq⟩ := (hI.running_sync sid sq hsq).1 hR
  obtain ⟨heqw, heqt⟩ := huniq wid t hrold
  subst heqw
  subst heqt
  have hnone : ∀ (wid2 : Nat) (t2 : Task),
      ¬ runningSeqTask (s.workers.set wid ⟨w.pool, WorkerState.idle, envNormal⟩)
        wid2 sid t2 := by
    intro wid2 t2 hr
    rw [runningSeqTask_set_iff s.workers wid _ hltw wid2 sid t2] at hr
    rcases hr with ⟨_, hst⟩ | ⟨hne, hr2⟩
    · exact WorkerState.noConfusion hst
    · exact hne (huniq wid2 t2 hr2).1
  have hiff2 : ∀ sid2 : Nat, sid2 ≠ sid → ∀ (wid2 : Nat) (t2 : Task),
      runningSeqTask (s.workers.set wid ⟨w.pool, WorkerState.idle, envNormal⟩)
        wid2 sid2 t2 ↔ runningSeqTask s.workers wid2 sid2 t2 := by
    intro sid2 hne
    refine runningSame_iff s.workers wid w _ sid2 hw ?_ ?_
    · intro t2 hst
      rw [hrun] at hst
      have h2 := WorkUnit.seqTask.inj (WorkerState.running.inj hst)
      exact hne h2.1.symm
    · intro t2 hst
      exact WorkerState.noConfusion hst
  have hnoentry : ∀ p : TaskPriority, ¬ (p, ReadyUnit.seqRef sid) ∈ s.ready := by
    intro p hmem
    obtain ⟨sq2, hsq2, hst2, _⟩ := hI.ready_queued p sid hmem
    rw [hsq] at hsq2
    cases hsq2
    rw [hR] at hst2
    exact SeqState.noConfusion hst2
  have hcount0 : List.countP (fun e => decide (e.2 = ReadyUnit.seqRef sid))
      s.ready = 0 := by
    rw [List.countP_eq_zero]
    intro e he hdec
    have he2 : e.2 = ReadyUnit.seqRef sid := of_decide_eq_true hdec
    refine hnoentry e.1 ?_
    rw [← he2]
    exact he
  constructor
  · intro wid2 w2 hw2
    by_cases h : wid2 = wid
    · subst h
      rw [List.getElem?_set_self hltw] at hw2
      cases hw2
      refine ⟨?_, ?_, ?_⟩
      · intro u hu
        exact WorkerState.noConfusion hu
      · intro _
        rfl
      · intro hc
        exact WorkerState.noConfusion hc
    · rw [List.getElem?_set_ne (fun heq => h heq.symm)] at hw2
      exact hI.env_ok wid2 w2 hw2
  · intro rid2 r2 hr2
    obtain ⟨h1, h2⟩ := hI.runner_wf rid2 r2 hr2
    refine ⟨h1, ?_⟩
    intro sid2 hsid2
    obtain ⟨sq2, hsq2, hsingle2, hpool2⟩ := h2 sid2 hsid2
    by_cases h : sid2 = sid
    · subst h
      rw [hsq] at hsq2
      cases hsq2
      exact ⟨_, List.getElem?_set_self hlts, hsingle2, hpool2⟩
    · exact ⟨sq2, by rw [List.getElem?_set_ne (fun heq => h heq.symm)]; exact hsq2,
        hsingle2, hpool2⟩
  · intro sid2 sq2 hsq2
    by_cases h : sid2 = sid
    · subst h
      rw [List.getElem?_set_self hlts] at hsq2
      cases hsq2
      simp only [postedTo_append, postedTo_one_ended, begunIn_append,
        begunIn_one_ended, List.append_nil]
      exact hI.posted_split sid2 sq hsq
    · rw [List.getElem?_set_ne (fun heq => h heq.symm)] at hsq2
      simp only [postedTo_append, postedTo_one_ended, begunIn_append,
        begunIn_one_ended, List.append_nil]
      exact hI.posted_split sid2 sq2 hsq2
  · intro sid2 sq2 hsq2
    by_cases h : sid2 = sid
    · subst h
      rw [List.getElem?_set_self hlts] at hsq2
      cases hsq2
      constructor
      · intro hc
        by_cases hqe : sq.queue = []
        · rw [if_pos hqe] at hc
          exact SeqState.noConfusion hc
        · rw [if_neg hqe] at hc
          exact SeqState.noConfusion hc
      · intro _
        refine ⟨?_, hnone⟩
        simp only [begunIn_append, begunIn_one_ended, endedIn_append,
          endedIn_one_ended_seq, List.append_nil, if_pos rfl]
        exact hbe
    · rw [List.getElem?_set_ne (fun heq => h heq.symm)] at hsq2
      have hne : sid ≠ sid2 := fun heq => h heq.symm
      refine rs_transport sq2.sstate s.workers _ s.trace _ sid2 (hiff2 sid2 h) ?_ ?_
        (hI.running_sync sid2 sq2 hsq2)
      · simp
      · simp [if_neg hne]
  · intro p sid2 hmem
    by_cases hqe : sq.queue = []
    · simp only [if_pos hqe] at hmem
      obtain ⟨sq2, hsq2, hst2, hp2⟩ := hI.ready_queued p sid2 hmem
      by_cases h : sid2 = sid
      · subst h
        rw [hsq] at hsq2
        cases hsq2
        rw [hR] at hst2
        exact absurd hst2 (fun hc => SeqState.noConfusion hc)
      · exact ⟨sq2, by rw [List.getElem?_set_ne (fun heq => h heq.symm)]; exact hsq2,
          hst2, hp2⟩
    · simp only [if_neg hqe] at hmem
      rcases List.mem_append.mp hmem with hm | hm
      · obtain ⟨sq2, hsq2, hst2, hp2⟩ := hI.ready_queued p sid2 hm
        by_cases h : sid2 = sid
        · subst h
          rw [hsq] at hsq2
          cases hsq2
          rw [hR] at hst2
          exact absurd hst2 (fun hc => SeqState.noConfusion hc)
        · exact ⟨sq2, by rw [List.getElem?_set_ne (fun heq => h heq.symm)]; exact hsq2,
            hst2, hp2⟩
      · simp at hm
        obtain ⟨hp, hsid⟩ := hm
        subst hsid
        refine ⟨_, List.getElem?_set_self hlts, ?_, hp⟩
        rw [if_neg hqe]
  · intro sid2
    by_cases hqe : sq.queue = []
    · simp only [if_pos hqe]
      exact hI.ready_unique sid2
    · simp only [if_neg hqe, List.countP_append]
      by_cases h : sid2 = sid
      · subst h
        rw [hcount0]
        simp [List.countP_cons]
      · have h1 : List.countP (fun e => decide (e.2 = ReadyUnit.seqRef sid2))
            [(sq.pool, ReadyUnit.seqRef sid)] = 0 := by
          rw [List.countP_eq_zero]
          intro e he hdec
          have he2 : e.2 = ReadyUnit.seqRef sid2 := of_decide_eq_true hdec
          simp at he
          subst he
          simp at he2
          exact h he2.symm
        rw [h1, Nat.add_zero]
        exact hI.ready_unique sid2
  · intro sid2 sq2 hsq2 hs2
    simp only [beganWorkers_append, beganWorkers_one_ended, List.append_nil]
    by_cases h : sid2 = sid
    · subst h
      rw [List.getElem?_set_self hlts] at hsq2
      cases hsq2
      exact hI.single_bound sid2 sq hsq hs2
    · rw [List.getElem?_set_ne (fun heq => h heq.symm)] at hsq2
      exact hI.single_bound sid2 sq2 hsq2 hs2
  · intro sid2 hle
    simp only [List.length_set] at hle
    have hold := hI.oob_trace sid2 hle
    have hne : sid ≠ sid2 := by omega
    simp only [postedTo_append, begunIn_append, endedIn_append, beganWorkers_append,
      postedTo_one_ended, begunIn_one_ended, endedIn_one_ended_seq,
      beganWorkers_one_ended, List.append_nil, if_neg hne]
    exact hold
  · intro wid2 sid2 t2 hr
    simp only [List.length_set]
    by_cases h : sid2 = sid
    · subst h
      exact absurd hr (hnone wid2 t2)
    · exact hI.running_lt wid2 sid2 t2 ((hiff2 sid2 h wid2 t2).mp hr)
  · intro hj
    have hold := hI.join_ok hj
    have := hold.2 w (mem_of_look hw)
    rw [hrun] at this
    exact WorkerState.noConfusion this

theorem inv_step {s s2 : SchedState} (hI : Inv s) (hstep : Step s s2) : Inv s2 := by
  cases hstep with
  | post rid => exact inv_post s rid hI
  | postDirect traits => exact inv_postDirect s traits hI
  | createRunner traits mode => exact inv_createRunner s traits mode hI
  | claimBare wid w l1 l2 t hw hidle hsd hready hfirst =>
      exact inv_claimBare s wid w l1 l2 t hI hw hidle hready
  | claimSeq wid w l1 l2 sid sq t rest hw hidle hsd hready hfirst hsq hbound hq =>
      exact inv_claimSeq s wid w l1 l2 sid sq t rest hI hw hidle hready hsq hbound hq
  | finishBare wid w t hw hrun => exact inv_finishBare s wid w t hI hw hrun
  | finishSeq wid w sid sq t hw hrun hsq =>
      exact inv_finishSeq s wid w sid sq t hI hw hrun hsq
  | requestShutdown => exact inv_requestShutdown s hI
  | workerExit wid w hw hidle hsd => exact inv_workerExit s wid w hI hw hidle
  | joinReturn hsd hall => exact inv_joinReturn s hI hsd hall

theorem inv_reach {ws : List TaskPriority} {s : SchedState}
    (h : Reach (initState ws) s) : Inv s := by
  induction h with
  | refl => exact inv_init ws
  | step _ hs ih => exact inv_step ih hs

/-- A thread that may call `RunsTasksOnCurrentThread`: one of the pool's
worker threads, or any external (posting) thread. -/
inductive CallerThread
  | workerThread (wid : Nat)
  | externalThread (n : Nat)
  deriving DecidableEq

/-- Modelled from the spec: `TaskRunner::RunsTasksOnCurrentThread` — reads
the calling worker's record of its currently executing unit (§4.3): true
for a worker of the matching pool when the Runner is PARALLEL, true for a
worker whose current unit belongs to the Runner's Sequence otherwise, and
false for any non-worker thread. -/
def SchedState.runsTasksOnCurrentThread (s : SchedState) (rid : Nat)
    (c : CallerThread) : Bool :=
  match s.runners[rid]? with
  | none => false
  | some r =>
      match c with
      | .externalThread _ => false
      | .workerThread wid =>
          match s.workers[wid]? with
          | none => false
          | some w =>
              match r.seq with
              | none => decide (w.pool = r.traits.priority)
              | some sid =>
                  match w.wstate with
                  | .running (.seqTask sid2 _) => decide (sid2 = sid)
                  | _ => false

/-- C1: on every worker thread of a reachable scheduler state, the OS
thread priority is reduced (BACKGROUND) during a task body exactly when the
task's traits priority is BACKGROUND, and normal for every other priority;
an idle worker (between tasks) is back at normal priority, so the priority
is re-established per task and a later higher-priority task on the same
thread observes normal priority. -/
theorem task_environment_thread_priority (ws : List TaskPriority)
    (s : SchedState) (h : Reach (initState ws) s) (wid : Nat) (w : Worker)
    (hw : s.workers[wid]? = some w) :
    (∀ u : WorkUnit, w.wstate = WorkerState.running u →
      w.env.threadPriority =
        (if u.task.traits.priority = TaskPriority.BACKGROUND then
          ThreadPriority.BACKGROUND else ThreadPriority.NORMAL)) ∧
    (w.wstate = WorkerState.idle →
      w.env.threadPriority = ThreadPriority.NORMAL) := by
  have he := (inv_reach h).env_ok wid w hw
  constructor
  · intro u hu
    rw [he.1 u hu]
    rfl
  · intro hidle
    rw [he.2.1 hidle]
    rfl

/-- C2: on every worker thread of a reachable scheduler state, OS-level
I/O-blocking restrictions are lifted during a task body exactly when the
task's traits have `with_file_io = true`, and are re-enabled as soon as the
worker is idle (or exited), so no I/O allowance leaks from one task to the
next on the same worker thread. -/
theorem task_environment_io_allowed (ws : List TaskPriority) (s : SchedState)
    (h : Reach (initState ws) s) (wid : Nat) (w : Worker)
    (hw : s.workers[wid]? = some w) :
    (∀ u : WorkUnit, w.wstate = WorkerState.running u →
      w.env.ioAllowed = u.task.traits.with_file_io) ∧
    (w.wstate = WorkerState.idle → w.env.ioAllowed = false) ∧
    (w.wstate = WorkerState.exited → w.env.ioAllowed = false) := by
  have he := (inv_reach h).env_ok wid w hw
  refine ⟨?_, ?_, ?_⟩
  · intro u hu
    rw [he.1 u hu]
    rfl
  · intro hidle
    rw [he.2.1 hidle]
    rfl
  · intro hex
    rw [he.2.2 hex]
    rfl

/-- C3: for the Sequence of any SEQUENCED or SINGLE_THREADED Task Runner,
in every reachable state the tasks whose bodies have begun form a prefix of
the tasks posted (so execution starts in exactly posting order), the ended
tasks form a prefix of the begun ones with at most one task outstanding (so
no two executions of the Sequence overlap in time), and at most one worker
system-wide is executing a task of the Sequence at any instant — for any
number of worker threads. -/
theorem sequence_fifo_no_overlap (ws : List TaskPriority) (s : SchedState)
    (h : Reach (initState ws) s) (rid : Nat) (r : TaskRunner) (sid : Nat)
    (hr : s.runners[rid]? = some r) (hseq : r.seq = some sid) :
    begunIn s.trace sid <+: postedTo s.trace sid ∧
    endedIn s.trace sid <+: begunIn s.trace sid ∧
    (begunIn s.trace sid).length ≤ (endedIn s.trace sid).length + 1 ∧
    (∀ (wid : Nat) (t : Task) (wid2 : Nat) (t2 : Task),
      runningSeqTask s.workers wid sid t → runningSeqTask s.workers wid2 sid t2 →
      wid = wid2 ∧ t = t2) := by
  have hI := inv_reach h
  obtain ⟨sq, hsq, _, _⟩ := (hI.runner_wf rid r hr).2 sid hseq
  refine ⟨⟨sq.queue, (hI.posted_split sid sq hsq).symm⟩, ?_⟩
  by_cases hR : sq.sstate = SeqState.RUNNING
  · obtain ⟨wid0, t0, hr0, hbe, huniq⟩ := (hI.running_sync sid sq hsq).1 hR
    refine ⟨⟨[t0], hbe.symm⟩, ?_, ?_⟩
    · rw [hbe]
      simp
    · intro wid t wid2 t2 h1 h2
      obtain ⟨e1, e2⟩ := huniq wid t h1
      obtain ⟨e3, e4⟩ := huniq wid2 t2 h2
      rw [e1, e2, e3, e4]
      exact ⟨rfl, rfl⟩
  · obtain ⟨hbe, hnr⟩ := (hI.running_sync sid sq hsq).2 hR
    refine ⟨⟨[], by rw [hbe, List.append_nil]⟩, ?_, ?_⟩
    · rw [hbe]
      omega
    · intro wid t wid2 t2 h1 _
      exact absurd h1 (hnr wid t)

/-- C4: for the Sequence of any SINGLE_THREADED Task Runner, in every
reachable state all tasks of the Sequence whose bodies have begun did so on
one identical worker thread. -/
theorem single_threaded_same_worker (ws : List TaskPriority) (s : SchedState)
    (h : Reach (initState ws) s) (rid : Nat) (r : TaskRunner) (sid : Nat)
    (hr : s.runners[rid]? = some r)
    (hmode : r.mode = ExecutionMode.SINGLE_THREADED)
    (hseq : r.seq = some sid) :
    ∀ w1 ∈ beganWorkers s.trace sid, ∀ w2 ∈ beganWorkers s.trace sid,
      w1 = w2 := by
  have hI := inv_reach h
  obtain ⟨sq, hsq, hsingle, _⟩ := (hI.runner_wf rid r hr).2 sid hseq
  have hst : sq.single = true := by
    rw [hsingle, hmode]
    rfl
  intro w1 h1 w2 h2
  have hb1 := hI.single_bound sid sq hsq hst w1 h1
  have hb2 := hI.single_bound sid sq hsq hst w2 h2
  rw [hb1] at hb2
  exact Option.some.inj hb2

/-- C5: posting through a Task Runner of a reachable scheduler returns
false exactly when unjoinable shutdown has begun, in which case the state
is completely unchanged (the task is silently dropped, never created or
executed, with no abort); in every other case the call returns true and the
task — carrying the Runner's traits — is recorded as posted (wrapped in the
Runner's Sequence when the mode is not PARALLEL). -/
theorem post_task_after_shutdown (ws : List TaskPriority) (s : SchedState)
    (h : Reach (initState ws) s) (rid : Nat) (r : TaskRunner)
    (hr : s.runners[rid]? = some r) :
    ((s.postTaskViaRunner rid).2 = false ↔ s.shutdown = true) ∧
    (s.shutdown = true → (s.postTaskViaRunner rid).1 = s) ∧
    (s.shutdown = false →
      (s.postTaskViaRunner rid).2 = true ∧
      (s.postTaskViaRunner rid).1.trace =
        s.trace ++ [Event.posted r.seq ⟨s.nextTaskId, r.traits⟩]) := by
  have hI := inv_reach h
  by_cases hsd : s.shutdown = true
  · have heq : s.postTaskViaRunner rid = (s, false) := by
      unfold SchedState.postTaskViaRunner
      rw [hr]
      simp [hsd]
    rw [heq]
    exact ⟨⟨fun _ => hsd, fun _ => rfl⟩, fun _ => rfl,
      fun hc => absurd hsd (by rw [hc]; exact fun h2 => Bool.noConfusion h2)⟩
  · have hsd2 : s.shutdown = false := by
      cases hb : s.shutdown
      · rfl
      · exact absurd hb hsd
    cases hseq : r.seq with
    | none =>
        have heq : s.postTaskViaRunner rid = ({ s with
            ready := s.ready ++
              [(r.traits.priority, ReadyUnit.bare ⟨s.nextTaskId, r.traits⟩)],
            nextTaskId := s.nextTaskId + 1,
            trace := s.trace ++ [Event.posted none ⟨s.nextTaskId, r.traits⟩] },
            true) := by
          unfold SchedState.postTaskViaRunner
          rw [hr]
          simp [hsd2, hseq]
        rw [heq]
        refine ⟨⟨fun hc => Bool.noConfusion hc, fun hc => absurd hc hsd⟩, ?_, ?_⟩
        · intro hc
          exact absurd hc hsd
        · intro _
          exact ⟨rfl, rfl⟩
    | some sid =>
        obtain ⟨sq, hsq, _, _⟩ := (hI.runner_wf rid r hr).2 sid hseq
        have heq : s.postTaskViaRunner rid = ({ s with
            seqs := s.seqs.set sid
              { sq with
                  queue := sq.queue ++ [⟨s.nextTaskId, r.traits⟩],
                  sstate := if sq.sstate = SeqState.EMPTY then SeqState.QUEUED
                    else sq.sstate },
            ready := if sq.sstate = SeqState.EMPTY then
                s.ready ++ [(sq.pool, ReadyUnit.seqRef sid)]
              else s.ready,
            nextTaskId := s.nextTaskId + 1,
            trace := s.trace ++
              [Event.posted (some sid) ⟨s.nextTaskId, r.traits⟩] }, true) := by
          unfold SchedState.postTaskViaRunner
          rw [hr]
          simp [hsd2, hseq, hsq]
        rw [heq]
        refine ⟨⟨fun hc => Bool.noConfusion hc, fun hc => absurd hc hsd⟩, ?_, ?_⟩
        · intro hc
          exact absurd hc hsd
        · intro _
          exact ⟨rfl, rfl⟩

/-- C6: in any reachable state in which `JoinForTesting` has returned, no
worker thread is mid-execution of a task; no further step can ever begin a
task body (even though tasks may remain queued) and the joined flag is
permanent; signalling shutdown a second time is a no-op on the state; and
posting after the join fails silently by returning false. -/
theorem join_for_testing_semantics (ws : List TaskPriority) (s : SchedState)
    (h : Reach (initState ws) s) :
    (s.joined = true → ∀ (wid : Nat) (w : Worker), s.workers[wid]? = some w →
      ∀ u : WorkUnit, w.wstate ≠ WorkerState.running u) ∧
    (s.joined = true → ∀ s2 : SchedState, Step s s2 →
      beganEvents s2.trace = beganEvents s.trace ∧ s2.joined = true) ∧
    (s.shutdown = true → joinRequest s = s) ∧
    (s.joined = true → ∀ rid : Nat, (s.postTaskViaRunner rid).2 = false) := by
  have hI := inv_reach h
  have hnorun : s.joined = true → ∀ (wid : Nat) (w : Worker),
      s.workers[wid]? = some w → ∀ u : WorkUnit,
      w.wstate ≠ WorkerState.running u := by
    intro hj wid w hw u hc
    have := (hI.join_ok hj).2 w (mem_of_look hw)
    rw [hc] at this
    exact WorkerState.noConfusion this
  have hpostf : s.joined = true → ∀ rid : Nat,
      (s.postTaskViaRunner rid).2 = false := by
    intro hj rid
    have hsd := (hI.join_ok hj).1
    unfold SchedState.postTaskViaRunner
    cases hr : s.runners[rid]? with
    | none => rfl
    | some r => simp [hsd]
  have hposts : s.joined = true → ∀ rid : Nat,
      (s.postTaskViaRunner rid).1 = s := by
    intro hj rid
    have hsd := (hI.join_ok hj).1
    unfold SchedState.postTaskViaRunner
    cases hr : s.runners[rid]? with
    | none => rfl
    | some r => simp [hsd]
  refine ⟨hnorun, ?_, ?_, hpostf⟩
  · intro hj s2 hstep
    have hsd := (hI.join_ok hj).1
    cases hstep with
    | post rid =>
        rw [hposts hj rid]
        exact ⟨rfl, hj⟩
    | postDirect traits =>
        have heq : (s.postTaskWithTraits traits).1 = s := by
          unfold SchedState.postTaskWithTraits
          simp [hsd]
        rw [heq]
        exact ⟨rfl, hj⟩
    | createRunner traits mode =>
        cases mode
        · exact ⟨rfl, hj⟩
        · exact ⟨rfl, hj⟩
        · exact ⟨rfl, hj⟩
    | claimBare wid w l1 l2 t hw hidle hsd2 hready hfirst =>
        rw [hsd] at hsd2
        exact Bool.noConfusion hsd2
    | claimSeq wid w l1 l2 sid sq t rest hw hidle hsd2 hready hfirst hsq hbound hq =>
        rw [hsd] at hsd2
        exact Bool.noConfusion hsd2
    | finishBare wid w t hw hrun =>
        exact absurd hrun (fun hc => hnorun hj wid w hw _ hc)
    | finishSeq wid w sid sq t hw hrun hsq =>
        exact absurd hrun (fun hc => hnorun hj wid w hw _ hc)
    | requestShutdown => exact ⟨rfl, hj⟩
    | workerExit wid w hw hidle hsd2 => exact ⟨rfl, hj⟩
    | joinReturn hsd2 hall => exact ⟨rfl, rfl⟩
  · intro hsd
    show { s with shutdown := true } = s
    rw [← hsd]

/-- C7: for any Task Runner of a reachable scheduler,
`RunsTasksOnCurrentThread` returns false for every external (non-worker)
calling thread — in particular for the thread that just created the Runner;
for a worker caller it returns true iff, for a PARALLEL Runner, the worker
belongs to the pool matching the Runner's traits' priority, and, for a
SEQUENCED or SINGLE_THREADED Runner, the worker is currently mid-execution
of a task that was posted to this Runner's Sequence. -/
theorem runs_tasks_on_current_thread_iff (ws : List TaskPriority)
    (s : SchedState) (h : Reach (initState ws) s) (rid : Nat) (r : TaskRunner)
    (hr : s.runners[rid]? = some r) :
    (∀ n : Nat,
      s.runsTasksOnCurrentThread rid (CallerThread.externalThread n) = false) ∧
    (r.seq = none → ∀ wid : Nat,
      (s.runsTasksOnCurrentThread rid (CallerThread.workerThread wid) = true ↔
        ∃ w : Worker, s.workers[wid]? = some w ∧ w.pool = r.traits.priority)) ∧
    (∀ sid : Nat, r.seq = some sid → ∀ wid : Nat,
      (s.runsTasksOnCurrentThread rid (CallerThread.workerThread wid) = true ↔
        ∃ (w : Worker) (t : Task), s.workers[wid]? = some w ∧
          w.wstate = WorkerState.running (WorkUnit.seqTask sid t) ∧
          t ∈ postedTo s.trace sid)) := by
  have hI := inv_reach h
  refine ⟨?_, ?_, ?_⟩
  · intro n
    unfold SchedState.runsTasksOnCurrentThread
    rw [hr]
  · intro hseq wid
    unfold SchedState.runsTasksOnCurrentThread
    rw [hr]
    dsimp only
    cases hw : s.workers[wid]? with
    | none =>
        dsimp only
        simp only [Bool.false_eq_true, false_iff]
        rintro ⟨w, hww, _⟩
        exact Option.noConfusion hww
    | some w =>
        rw [hseq]
        dsimp only
        rw [decide_eq_true_iff]
        constructor
        · intro hp
          exact ⟨w, rfl, hp⟩
        · rintro ⟨w2, hww, hp⟩
          cases hww
          exact hp
  · intro sid hseq wid
    unfold SchedState.runsTasksOnCurrentThread
    rw [hr]
    dsimp only
    cases hw : s.workers[wid]? with
    | none =>
        dsimp only
        simp only [Bool.false_eq_true, false_iff]
        rintro ⟨w, t, hww, _, _⟩
        exact Option.noConfusion hww
    | some w =>
        rw [hseq]
        dsimp only
        cases hws : w.wstate with
        | idle =>
            simp only [Bool.false_eq_true, false_iff]
            rintro ⟨w2, t, hww, hst, _⟩
            cases hww
            rw [hws] at hst
            exact WorkerState.noConfusion hst
        | exited =>
            simp only [Bool.false_eq_true, false_iff]
            rintro ⟨w2, t, hww, hst, _⟩
            cases hww
            rw [hws] at hst
            exact WorkerState.noConfusion hst
        | running u =>
            cases u with
            | bare t =>
                simp only [Bool.false_eq_true, false_iff]
                rintro ⟨w2, t2, hww, hst, _⟩
                cases hww
                rw [hws] at hst
                exact WorkUnit.noConfusion (WorkerState.running.inj hst)
            | seqTask sid2 t =>
                rw [decide_eq_true_iff]
                constructor
                · intro heq
                  subst heq
                  refine ⟨w, t, rfl, hws, ?_⟩
                  obtain ⟨sq, hsq, _, _⟩ := (hI.runner_wf rid r hr).2 sid2 hseq
                  have hrold : runningSeqTask s.workers wid sid2 t :=
                    ⟨w, hw, hws⟩
                  have hR : sq.sstate = SeqState.RUNNING := by
                    by_contra hc
                    exact ((hI.running_sync sid2 sq hsq).2 hc).2 wid t hrold
                  obtain ⟨wid0, t0, _, hbe, huniq⟩ :=
                    (hI.running_sync sid2 sq hsq).1 hR
                  obtain ⟨_, heqt⟩ := huniq wid t hrold
                  have hmemb : t ∈ begunIn s.trace sid2 := by
                    rw [hbe, heqt]
                    exact List.mem_append.mpr (Or.inr (List.mem_cons_self _ _))
                  rw [hI.posted_split sid2 sq hsq]
                  exact List.mem_append.mpr (Or.inl hmemb)
                · rintro ⟨w2, t2, hww, hst, _⟩
                  cases hww
                  rw [hws] at hst
                  exact (WorkUnit.seqTask.inj (WorkerState.running.inj hst)).1

/-- C8: `TaskTraits::WithPriority(p)` yields traits whose priority is `p`
and whose `with_file_io` equals the original's, and `TaskTraits::WithFileIO`
yields traits with `with_file_io = true` and the original priority; traits
are immutable values, so the original is unchanged by either builder. -/
theorem traits_builders (t : TaskTraits) (p : TaskPriority) :
    (t.WithPriority p).priority = p ∧
    (t.WithPriority p).with_file_io = t.with_file_io ∧
    (t.WithFileIo).with_file_io = true ∧
    (t.WithFileIo).priority = t.priority :=
  ⟨rfl, rfl, rfl, rfl⟩

def trNORM : TaskTraits := ⟨TaskPriority.NORMAL, false⟩

def wsOne : List TaskPriority := [TaskPriority.NORMAL]

def task0 : Task := ⟨0, trNORM⟩

def w0 : Worker := mkWorker TaskPriority.NORMAL

def wRun : Worker :=
  ⟨w0.pool, WorkerState.running (WorkUnit.seqTask 0 task0), envFor task0.traits⟩

def wIdle : Worker := ⟨wRun.pool, WorkerState.idle, envNormal⟩

def r1 : TaskRunner := ⟨trNORM, ExecutionMode.SINGLE_THREADED, some 0⟩

def sq1 : Sequence :=
  ⟨TaskPriority.NORMAL, true, [task0], SeqState.QUEUED, none⟩

def sq3 : Sequence :=
  { sq1 with
      queue := [],
      sstate := SeqState.RUNNING,
      bound := if sq1.single then some 0 else sq1.bound }

def st0 : SchedState := initState wsOne

def st1 : SchedState :=
  (st0.createTaskRunnerWithTraits trNORM ExecutionMode.SINGLE_THREADED).1

def st2 : SchedState := (st1.postTaskViaRunner 0).1

def st3 : SchedState :=
  { st2 with
    ready := ([] : List (TaskPriority × ReadyUnit)) ++ [],
    seqs := st2.seqs.set 0
      { sq1 with
          queue := [],
          sstate := SeqState.RUNNING,
          bound := if sq1.single then some 0 else sq1.bound },
    workers := st2.workers.set 0
      ⟨w0.pool, WorkerState.running (WorkUnit.seqTask 0 task0), envFor task0.traits⟩,
    trace := st2.trace ++ [Event.began 0 (WorkUnit.seqTask 0 task0)] }

def st4 : SchedState :=
  { st3 with
    workers := st3.workers.set 0 ⟨wRun.pool, WorkerState.idle, envNormal⟩,
    seqs := st3.seqs.set 0
      { sq3 with
          sstate := if sq3.queue = [] then SeqState.EMPTY else SeqState.QUEUED },
    ready := if sq3.queue = [] then st3.ready
      else st3.ready ++ [(sq3.pool, ReadyUnit.seqRef 0)],
    trace := st3.trace ++ [Event.ended 0 (WorkUnit.seqTask 0 task0)] }

def st5 : SchedState := joinRequest st4

def st6 : SchedState :=
  { st5 with
    workers := st5.workers.set 0 ⟨wIdle.pool, WorkerState.exited, wIdle.env⟩ }

def st7 : SchedState := { st6 with joined := true }

theorem reach1 : Reach (initState wsOne) st1 :=
  Reach.step Reach.refl (Step.createRunner st0 trNORM ExecutionMode.SINGLE_THREADED)

theorem reach2 : Reach (initState wsOne) st2 :=
  Reach.step reach1 (Step.post st1 0)

theorem step23 : Step st2 st3 := by
  refine Step.claimSeq st2 0 w0 [] [] 0 sq1 task0 [] ?_ ?_ ?_ ?_ ?_ ?_ ?_ ?_
  · decide
  · rfl
  · rfl
  · decide
  · intro e he
    exact absurd he (List.not_mem_nil e)
  · decide
  · exact Or.inl rfl
  · rfl

theorem reach3 : Reach (initState wsOne) st3 :=
  Reach.step reach2 step23

theorem step34 : Step st3 st4 := by
  refine Step.finishSeq st3 0 wRun 0 sq3 task0 ?_ ?_ ?_
  · decide
  · rfl
  · decide

theorem reach4 : Reach (initState wsOne) st4 :=
  Reach.step reach3 step34

theorem reach5 : Reach (initState wsOne) st5 :=
  Reach.step reach4 (Step.requestShutdown st4)

theorem step56 : Step st5 st6 := by
  refine Step.workerExit st5 0 wIdle ?_ ?_ ?_
  · decide
  · rfl
  · rfl

theorem reach6 : Reach (initState wsOne) st6 :=
  Reach.step reach5 step56

theorem step67 : Step st6 st7 := by
  refine Step.joinReturn st6 ?_ ?_
  · rfl
  · decide

theorem reach7 : Reach (initState wsOne) st7 :=
  Reach.step reach6 step67

/-- C1 witness: in the concrete state `st3` the single worker is
mid-execution of the NORMAL-priority `task0` and its OS thread priority is
normal. -/
theorem task_environment_thread_priority_witness :
    Reach (initState wsOne) st3 ∧ st3.workers[0]? = some wRun ∧
      ((∀ u : WorkUnit, wRun.wstate = WorkerState.running u →
        wRun.env.threadPriority =
          (if u.task.traits.priority = TaskPriority.BACKGROUND then
            ThreadPriority.BACKGROUND else ThreadPriority.NORMAL)) ∧
      (wRun.wstate = WorkerState.idle →
        wRun.env.threadPriority = ThreadPriority.NORMAL)) :=
  ⟨reach3, by decide,
    task_environment_thread_priority wsOne st3 reach3 0 wRun (by decide)⟩

/-- C2 witness: in the concrete state `st3` the single worker runs `task0`
(no file I/O requested) with I/O restrictions enabled. -/
theorem task_environment_io_allowed_witness :
    Reach (initState wsOne) st3 ∧ st3.workers[0]? = some wRun ∧
      ((∀ u : WorkUnit, wRun.wstate = WorkerState.running u →
        wRun.env.ioAllowed = u.task.traits.with_file_io) ∧
      (wRun.wstate = WorkerState.idle → wRun.env.ioAllowed = false) ∧
      (wRun.wstate = WorkerState.exited → wRun.env.ioAllowed = false)) :=
  ⟨reach3, by decide,
    task_environment_io_allowed wsOne st3 reach3 0 wRun (by decide)⟩

/-- C3 witness: the Sequence of the SINGLE_THREADED runner after `task0`
has been posted, begun and ended in state `st4`. -/
theorem sequence_fifo_no_overlap_witness :
    Reach (initState wsOne) st4 ∧ st4.runners[0]? = some r1 ∧ r1.seq = some 0 ∧
      (begunIn st4.trace 0 <+: postedTo st4.trace 0 ∧
        endedIn st4.trace 0 <+: begunIn st4.trace 0 ∧
        (begunIn st4.trace 0).length ≤ (endedIn st4.trace 0).length + 1 ∧
        (∀ (wid : Nat) (t : Task) (wid2 : Nat) (t2 : Task),
          runningSeqTask st4.workers wid 0 t →
          runningSeqTask st4.workers wid2 0 t2 → wid = wid2 ∧ t = t2)) :=
  ⟨reach4, by decide, rfl,
    sequence_fifo_no_overlap wsOne st4 reach4 0 r1 0 (by decide) rfl⟩

/-- C4 witness: all tasks of the SINGLE_THREADED runner's Sequence in
state `st4` began on the same worker. -/
theorem single_threaded_same_worker_witness :
    Reach (initState wsOne) st4 ∧ st4.runners[0]? = some r1 ∧
      r1.mode = ExecutionMode.SINGLE_THREADED ∧ r1.seq = some 0 ∧
      (∀ w1 ∈ beganWorkers st4.trace 0, ∀ w2 ∈ beganWorkers st4.trace 0,
        w1 = w2) :=
  ⟨reach4, by decide, rfl, rfl,
    single_threaded_same_worker wsOne st4 reach4 0 r1 0 (by decide) rfl rfl⟩

/-- C5 witness: posting through the runner of the freshly created
scheduler in state `st1` (shutdown not begun). -/
theorem post_task_after_shutdown_witness :
    Reach (initState wsOne) st1 ∧ st1.runners[0]? = some r1 ∧
      (((st1.postTaskViaRunner 0).2 = false ↔ st1.shutdown = true) ∧
      (st1.shutdown = true → (st1.postTaskViaRunner 0).1 = st1) ∧
      (st1.shutdown = false →
        (st1.postTaskViaRunner 0).2 = true ∧
        (st1.postTaskViaRunner 0).1.trace =
          st1.trace ++ [Event.posted r1.seq ⟨st1.nextTaskId, r1.traits⟩])) :=
  ⟨reach1, by decide,
    post_task_after_shutdown wsOne st1 reach1 0 r1 (by decide)⟩

/-- C6 witness: the fully joined scheduler state `st7`. -/
theorem join_for_testing_semantics_witness :
    Reach (initState wsOne) st7 ∧
      ((st7.joined = true → ∀ (wid : Nat) (w : Worker),
        st7.workers[wid]? = some w →
        ∀ u : WorkUnit, w.wstate ≠ WorkerState.running u) ∧
      (st7.joined = true → ∀ s2 : SchedState, Step st7 s2 →
        beganEvents s2.trace = beganEvents st7.trace ∧ s2.joined = true) ∧
      (st7.shutdown = true → joinRequest st7 = st7) ∧
      (st7.joined = true → ∀ rid : Nat, (st7.postTaskViaRunner rid).2 = false)) :=
  ⟨reach7, join_for_testing_semantics wsOne st7 reach7⟩

/-- C7 witness: `RunsTasksOnCurrentThread` for the SINGLE_THREADED runner
in state `st3`, where worker 0 is executing the Sequence's task. -/
theorem runs_tasks_on_current_thread_iff_witness :
    Reach (initState wsOne) st3 ∧ st3.runners[0]? = some r1 ∧
      ((∀ n : Nat, st3.runsTasksOnCurrentThread 0
        (CallerThread.externalThread n) = false) ∧
      (r1.seq = none → ∀ wid : Nat,
        (st3.runsTasksOnCurrentThread 0 (CallerThread.workerThread wid) = true ↔
          ∃ w : Worker, st3.workers[wid]? = some w ∧
            w.pool = r1.traits.priority)) ∧
      (∀ sid : Nat, r1.seq = some sid → ∀ wid : Nat,
        (st3.runsTasksOnCurrentThread 0 (CallerThread.workerThread wid) = true ↔
          ∃ (w : Worker) (t : Task), st3.workers[wid]? = some w ∧
            w.wstate = WorkerState.running (WorkUnit.seqTask sid t) ∧
            t ∈ postedTo st3.trace sid))) :=
  ⟨reach3, by decide,
    runs_tasks_on_current_thread_iff wsOne st3 reach3 0 r1 (by decide)⟩

end Scheduler
